import Mathlib

set_option maxHeartbeats 1000000

/-!
Shallow embedding of the hachoir field-set driver
(`hachoir-core/hachoir_core/field/generic_field_set.py`), of the float
composites (`hachoir-core/hachoir_core/field/float.py`) and of the JPEG
chunk walk (`hachoir-parser/hachoir_parser/image/jpeg.py`).

Sizes and addresses are bit counts, held in `Nat` exactly as the Python
code holds non-negative ints; the one signed quantity (`dsize`, the
remaining-space computation of `_checkSize`) is an `Int`, as in the source.
-/

/-- A materialised child of a field set (an entry of `_fields`): its name,
bit address relative to the parent, bit size, the `is_field_set` flag, and
an abstract value token standing for the lazily computed value (which the
source derives from the stream bytes at the field's address and size). -/
structure FieldRec where
  name : String
  address : Nat
  size : Nat
  isSet : Bool
  val : Nat
deriving Repr, DecidableEq

/-- One item yielded by a `createFields` producer, described by the data the
driver reads off the yielded field object: its constructed name and address,
its size (`none` when querying `field.size` raises a HACHOIR error), the
`is_field_set` flag, and — for the error path of `_addField` — the child's
`current_length`, `eof` flag and `_current_size` at that moment. -/
structure FieldSpec where
  name : String
  addr : Nat
  size? : Option Nat
  isSet : Bool
  currentLen : Nat
  eofF : Bool
  childCur : Nat
  val : Nat
deriving Repr, DecidableEq

/-- A producer step: either yield a field or raise a HACHOIR error (the
producer itself failing, e.g. an `InputStreamError` while building the
next field). -/
inductive ProdItem where
  | yieldF (f : FieldSpec)
  | raiseErr
deriving Repr, DecidableEq

/-- The Python exceptions crossing the driver's boundaries.  `parserError`,
`uniqKeyError` and `hachoirError` are HACHOIR errors (caught by
`except HACHOIR_ERRORS`); `typeError`, `indexError` and `assertFail` are
plain Python faults that propagate uncaught. -/
inductive DErr where
  | parserError (msg : String)
  | uniqKeyError
  | hachoirError
  | typeError
  | indexError
  | assertFail
deriving Repr, DecidableEq

/-- Which exceptions the `except HACHOIR_ERRORS` handlers catch. -/
def DErr.isHachoir : DErr → Bool
  | DErr.parserError _ => true
  | DErr.uniqKeyError => true
  | DErr.hachoirError => true
  | DErr.typeError => false
  | DErr.indexError => false
  | DErr.assertFail => false

/-- The state of one `GenericFieldSet`.  `ancestors` lists, from the parent
upward to the root, each ancestor's relative address and (optional) size, as
walked by `_checkSize`; `producer` is the restartable `createFields`
sequence and `gen` the live generator (`none` once parsing is done). -/
structure FSState where
  sname : String
  description : Option String
  selfAddr : Nat
  ancestors : List (Nat × Option Nat)
  size? : Option Nat
  fields : List FieldRec
  counters : List (String × Nat)
  currentSize : Nat
  gen : Option (List ProdItem)
  producer : List ProdItem
deriving Repr, DecidableEq

/-- The names of the materialised fields, in order (the keys of `_fields`). -/
def fieldNames (s : FSState) : List String := s.fields.map FieldRec.name

/-- Lookup in the `_field_array_count` mapping. -/
def lookupCount : List (String × Nat) → String → Option Nat
  | [], _ => none
  | p :: rest, k => if p.1 = k then some p.2 else lookupCount rest k

/-- Update (or create) an entry of the `_field_array_count` mapping. -/
def setCount : List (String × Nat) → String → Nat → List (String × Nat)
  | [], k, v => [(k, v)]
  | p :: rest, k, v => if p.1 = k then (k, v) :: rest else p :: setCount rest k v

/-- Python's `str.endswith`, computed on the character list (the form the
kernel evaluates). -/
def strEndsWith (s suffix : String) : Bool := List.isSuffixOf suffix.data s.data

/-- Python's slicing `name[:-2]`, computed on the character list. -/
def strDropRight (s : String) (n : Nat) : String :=
  String.mk (s.data.take (s.data.length - n))

/-- `GenericFieldSet.setUniqueFieldName`: strip the trailing `"[]"`, bump the
per-key counter (`+= 1`, or create it at `0`), and rename the field to
`key[counter]`.  Returns the updated counters and the new name. -/
def setUniqueFieldName (cs : List (String × Nat)) (nm : String) :
    List (String × Nat) × String :=
  let key := strDropRight nm 2
  match lookupCount cs key with
  | some c => (setCount cs key (c + 1), key ++ "[" ++ toString (c + 1) ++ "]")
  | none => (setCount cs key 0, key ++ "[" ++ toString (0 : Nat) ++ "]")

/-- The ancestor walk of `GenericFieldSet._checkSize` in its non-strict form
(the form `_addField` uses): starting from a chain of (address, size) pairs,
skip the chain entries with unknown size while accumulating their addresses;
return `fieldSize - accumulated` at the first known size, and `none` when
the root is reached with its size unknown (`strict` is false there). -/
def csWalk : List (Nat × Option Nat) → Int → Option Int
  | [], _ => none
  | (_, some n) :: _, x => some ((n : Int) - x)
  | (a, none) :: rest, x => if rest.isEmpty then none else csWalk rest (x + (a : Int))

/-- `self._checkSize(x, False)` for the field set `s`: the chain starts at
`s` itself and continues through its ancestors. -/
def checkSizeLoose (s : FSState) (x : Nat) : Option Int :=
  csWalk ((s.selfAddr, s.size?) :: s.ancestors) (x : Int)

/-- The Python 2 chained comparison `None < dsize < 0`. -/
def negOpt : Option Int → Bool
  | some d => decide (d < 0)
  | none => false

/-- Outcome of `GenericFieldSet._addField`: appended normally, appended and
then `StopIteration` raised (the `ask_stop` path), `StopIteration` raised
without appending (the drop path of `_fixFieldSize`), or an exception
propagating out together with the state as mutated so far. -/
inductive AddRes where
  | ok (s : FSState)
  | okStop (s : FSState)
  | dropStop (s : FSState)
  | fail (e : DErr) (s : FSState)
deriving Repr, DecidableEq

/-- The tail of `_addField` from `self._current_size += field.size` on:
bump `current_size`, then `self._fields.append`; a duplicate name is caught
once, the field renamed with a suffixed `"[]"` and re-numbered, and the
append retried — a second duplicate propagates `UniqKeyError` (with the
bumped `current_size` kept). -/
def appendField (s : FSState) (nm : String) (addr fsize : Nat) (isSet : Bool)
    (val : Nat) (askStop : Bool) : AddRes :=
  let s1 : FSState := { s with currentSize := s.currentSize + fsize }
  if nm ∈ fieldNames s1 then
    let p := setUniqueFieldName s1.counters (nm ++ "[]")
    let s2 : FSState := { s1 with counters := p.1 }
    if p.2 ∈ fieldNames s2 then AddRes.fail DErr.uniqKeyError s2
    else
      let s3 : FSState :=
        { s2 with fields := s2.fields ++ [⟨p.2, addr, fsize, isSet, val⟩] }
      if askStop then AddRes.okStop s3 else AddRes.ok s3
  else
    let s3 : FSState :=
      { s1 with fields := s1.fields ++ [⟨nm, addr, fsize, isSet, val⟩] }
    if askStop then AddRes.okStop s3 else AddRes.ok s3

/-- The middle of `_addField`, once `field.size` is known: compute
`dsize = _checkSize(field.address + field.size, False)`; on
`None < dsize < 0` or a zero-sized composite run `_fixFieldSize`
(truncate a positive-sized composite to `field.size + dsize` when that is
positive, otherwise drop the field — setting `self._size` in the drop case
when it was unknown and the slack positive — and raise `StopIteration`),
or raise `ParserError` when auto-fix is off; otherwise append. -/
def addFieldSized (autofix : Bool) (s : FSState) (nm : String) (addr fsize : Nat)
    (isSet : Bool) (val : Nat) (askStop : Bool) : AddRes :=
  let dsize := checkSizeLoose s (addr + fsize)
  if negOpt dsize || (isSet && fsize == 0) then
    if autofix then
      match dsize with
      | none => AddRes.fail DErr.typeError s
      | some d =>
        let newSize : Int := (fsize : Int) + d
        if 0 < newSize then
          if isSet && decide (0 < fsize) then
            appendField s nm addr newSize.toNat isSet val askStop
          else
            let s2 : FSState :=
              if s.size? = none then
                { s with size? := some (s.currentSize + newSize.toNat) }
              else s
            AddRes.dropStop s2
        else AddRes.dropStop s
    else AddRes.fail (DErr.parserError "too large") s
  else appendField s nm addr fsize isSet val askStop

/-- `GenericFieldSet._addField`: rename a `"[]"` name, force the field's
address to `current_size`, query `field.size` (on failure, seal a non-empty
child at `eof` — giving it its current size — and remember to stop, else
re-raise), then check the remaining space and append. -/
def addField (autofix : Bool) (s : FSState) (f : FieldSpec) : AddRes :=
  let p := if strEndsWith f.name "[]" then setUniqueFieldName s.counters f.name
           else (s.counters, f.name)
  let s1 : FSState := { s with counters := p.1 }
  let addr := if f.addr = s1.currentSize then f.addr else s1.currentSize
  match f.size? with
  | some n => addFieldSized autofix s1 p.2 addr n f.isSet f.val false
  | none =>
    if f.isSet && (f.currentLen != 0) && f.eofF then
      addFieldSized autofix s1 p.2 addr f.childCur f.isSet f.val true
    else AddRes.fail DErr.hachoirError s1

/-- Modelled from the spec: `createRawField` (a `hachoir_core.field` helper
whose module is not under `src/`) builds the synthetic trailing field named
`"raw[]"` covering the given bit range — the spec fixes its name (`raw[]`)
and its size (the exact slack); it is a leaf (raw bytes/bits). -/
def createRawField (addr size : Nat) : FieldRec :=
  ⟨"raw[]", addr, size, false, 0⟩

/-- Outcome of `_stopFeeding` / `_fixLastField`: sealed (with the added raw
field, if any), or an exception together with the state as mutated so far. -/
inductive StopRes where
  | ok (s : FSState) (raw : Option FieldRec)
  | fail (e : DErr) (s : FSState)
deriving Repr, DecidableEq

/-- The deletion loop of `_fixLastField`, acting on the reversed field list:
`while self._size < self._current_size: delete last field` (each deletion
subtracting the field's size from `current_size`).  The `Bool` is `true`
when the loop runs out of fields while still oversized (Python's
`IndexError` on `values[-1]`). -/
def dropTrailingRev (n : Nat) : List FieldRec → Nat → List FieldRec × Nat × Bool
  | [], cur => ([], cur, decide (n < cur))
  | f :: rest, cur =>
    if n < cur then dropTrailingRev n rest (cur - f.size)
    else (f :: rest, cur, false)

/-- `GenericFieldSet._fixLastField` with the known size `n`: stop the
parser, delete trailing fields while `size < current_size`, then — when
`size - current_size` is non-zero — append a `raw[]` field of exactly that
slack (bumping `current_size` before the dict append, whose duplicate-key
error would propagate). -/
def fixLastField (s : FSState) (n : Nat) : StopRes :=
  let s1 : FSState := { s with gen := none }
  let t := dropTrailingRev n s1.fields.reverse s1.currentSize
  let s2 : FSState := { s1 with fields := t.1.reverse, currentSize := t.2.1 }
  if t.2.2 then StopRes.fail DErr.indexError s2
  else
    let slack := n - s2.currentSize
    if slack = 0 then StopRes.ok s2 none
    else
      let raw := createRawField s2.currentSize slack
      let s3 : FSState := { s2 with currentSize := s2.currentSize + raw.size }
      if raw.name ∈ fieldNames s3 then StopRes.fail DErr.uniqKeyError s3
      else StopRes.ok { s3 with fields := s3.fields ++ [raw] } (some raw)

/-- `GenericFieldSet._stopFeeding`: with unknown size, record
`size = current_size` when the set has a parent; with a known size differing
from `current_size`, auto-fix through `_fixLastField` or raise
`ParserError` (leaving the generator in place); finally clear the
generator. -/
def stopFeeding (autofix : Bool) (s : FSState) : StopRes :=
  match s.size? with
  | none =>
    let s1 : FSState :=
      if s.ancestors.isEmpty then s else { s with size? := some s.currentSize }
    StopRes.ok { s1 with gen := none } none
  | some n =>
    if n ≠ s.currentSize then
      if autofix then fixLastField s n
      else StopRes.fail (DErr.parserError "invalid parser size") s
    else StopRes.ok { s with gen := none } none

/-- `GenericFieldSet._fixFeedError`: when the size is unknown or auto-fix is
off, the original error re-raises; otherwise `_fixLastField` repairs (its
own exceptions propagating). -/
def feedErrorStep (autofix : Bool) (s : FSState) (e : DErr) :
    FSState × Option DErr :=
  match s.size? with
  | none => (s, some e)
  | some n =>
    if autofix then
      match fixLastField s n with
      | StopRes.ok s1 _ => (s1, none)
      | StopRes.fail e1 s1 => (s1, some e1)
    else (s, some e)

/-- One driver step: either the loop continues with a new state, or the
current `readMoreFields` run finishes (sealed, or with a propagating
exception). -/
inductive StepRes where
  | cont (s : FSState)
  | fin (s : FSState) (e : Option DErr)
deriving Repr, DecidableEq

/-- Run `_stopFeeding` and finish the feeding run with its outcome. -/
def stopToFin (autofix : Bool) (s : FSState) : StepRes :=
  match stopFeeding autofix s with
  | StopRes.ok s1 _ => StepRes.fin s1 none
  | StopRes.fail e s1 => StepRes.fin s1 (some e)

/-- One iteration of the feeding loop of `readMoreFields`:
`self._addField(self._field_generator.next())` with the surrounding
`except HACHOIR_ERRORS` (→ `_fixFeedError`) and `except StopIteration`
(→ `_stopFeeding`) handlers. -/
def feedStep (autofix : Bool) (s : FSState) : StepRes :=
  match s.gen with
  | none => StepRes.fin s none
  | some [] => stopToFin autofix s
  | some (ProdItem.raiseErr :: _) =>
    let s1 : FSState := { s with gen := some [] }
    let t := feedErrorStep autofix s1 DErr.hachoirError
    StepRes.fin t.1 t.2
  | some (ProdItem.yieldF f :: rest) =>
    let s1 : FSState := { s with gen := some rest }
    match addField autofix s1 f with
    | AddRes.ok s2 => StepRes.cont s2
    | AddRes.okStop s2 => stopToFin autofix s2
    | AddRes.dropStop s2 => stopToFin autofix s2
    | AddRes.fail e s2 =>
      if e.isHachoir then
        let t := feedErrorStep autofix s2 e
        StepRes.fin t.1 t.2
      else StepRes.fin s2 (some e)

/-- The `for index in xrange(number)` loop of `readMoreFields`. -/
def feedLoop (autofix : Bool) : Nat → FSState → FSState × Option DErr
  | 0, s => (s, none)
  | Nat.succ k, s =>
    match feedStep autofix s with
    | StepRes.cont s1 => feedLoop autofix k s1
    | StepRes.fin s1 e => (s1, e)

/-- `GenericFieldSet.readMoreFields(number)` (its effect on the state; the
returned count of added fields is not modelled): do nothing when parsing is
done, else pump the producer up to `number` times. -/
def readMoreFields (autofix : Bool) (k : Nat) (s : FSState) :
    FSState × Option DErr :=
  match s.gen with
  | none => (s, none)
  | some _ => feedLoop autofix k s

/-- `GenericFieldSet.reset`: clear fields, counters and `current_size`,
restart the field generator; keep name, size and description. -/
def reset (s : FSState) : FSState :=
  { s with fields := [], gen := some s.producer, counters := [],
           currentSize := 0 }

/-- The fields `c₀ … cₙ₋₁` are contiguous from address `a`:
`c₀.address = a` and each next field starts where the previous ends. -/
def contiguousFrom : Nat → List FieldRec → Prop
  | _, [] => True
  | a, f :: rest => f.address = a ∧ contiguousFrom (a + f.size) rest

/-- Total bit size of a field list. -/
def sumSizes (fs : List FieldRec) : Nat := (fs.map FieldRec.size).sum

/-- The layout invariant of a field set: children contiguous from address 0
and the last child ending exactly at `current_size`. -/
def layoutInv (s : FSState) : Prop :=
  contiguousFrom 0 s.fields ∧ sumSizes s.fields = s.currentSize

def contiguousFromDec : (a : Nat) → (fs : List FieldRec) →
    Decidable (contiguousFrom a fs)
  | _, [] => isTrue trivial
  | a, f :: rest =>
    match contiguousFromDec (a + f.size) rest with
    | isTrue h =>
      if h2 : f.address = a then isTrue ⟨h2, h⟩
      else isFalse (fun hc => h2 hc.1)
    | isFalse h => isFalse (fun hc => h hc.2)

instance (a : Nat) (fs : List FieldRec) : Decidable (contiguousFrom a fs) :=
  contiguousFromDec a fs

instance (s : FSState) : Decidable (layoutInv s) :=
  inferInstanceAs (Decidable (And _ _))

theorem sumSizes_append (fs : List FieldRec) (r : FieldRec) :
    sumSizes (fs ++ [r]) = sumSizes fs + r.size := by
  simp [sumSizes]

theorem contiguousFrom_append (a : Nat) (fs : List FieldRec) (r : FieldRec)
    (h : contiguousFrom a fs) (hr : r.address = a + sumSizes fs) :
    contiguousFrom a (fs ++ [r]) := by
  induction fs generalizing a with
  | nil => simpa [contiguousFrom, sumSizes] using hr
  | cons f rest ih =>
    obtain ⟨h1, h2⟩ := h
    refine ⟨h1, ih (a + f.size) h2 ?_⟩
    rw [hr]
    simp [sumSizes]
    ring

/-- Specification of `appendField` from a state satisfying the layout
invariant, when the appended address is the current size: the appended
outcomes keep the invariant and extend the fields by one record placed at
`current_size`; the only error outcome is the propagating duplicate-name
`UniqKeyError`, which leaves `current_size` bumped. -/
theorem appendField_spec (s : FSState) (nm : String) (fsize : Nat)
    (isSet : Bool) (val : Nat) (askStop : Bool) (h : layoutInv s) :
    (match appendField s nm s.currentSize fsize isSet val askStop with
     | AddRes.ok s1 => layoutInv s1 ∧
        ∃ r : FieldRec, r.address = s.currentSize ∧ r.size = fsize ∧
          s1.fields = s.fields ++ [r] ∧
          s1.currentSize = s.currentSize + r.size
     | AddRes.okStop s1 => layoutInv s1 ∧
        ∃ r : FieldRec, r.address = s.currentSize ∧ r.size = fsize ∧
          s1.fields = s.fields ++ [r] ∧
          s1.currentSize = s.currentSize + r.size
     | AddRes.dropStop _ => False
     | AddRes.fail e s1 => e = DErr.uniqKeyError ∧ s1.fields = s.fields ∧
          s1.currentSize = s.currentSize + fsize) := by
  obtain ⟨hc, hs⟩ := h
  have hlay : ∀ nm2 : String,
      layoutInv { s with
        currentSize := s.currentSize + fsize,
        counters := (setUniqueFieldName
          { s with currentSize := s.currentSize + fsize }.counters
          (nm ++ "[]")).1,
        fields := s.fields ++ [⟨nm2, s.currentSize, fsize, isSet, val⟩] } := by
    intro nm2
    constructor
    · exact contiguousFrom_append 0 s.fields _ hc (by simpa using hs.symm)
    · simp [sumSizes_append, hs]
  have hlay2 :
      layoutInv { s with
        currentSize := s.currentSize + fsize,
        fields := s.fields ++ [⟨nm, s.currentSize, fsize, isSet, val⟩] } := by
    constructor
    · exact contiguousFrom_append 0 s.fields _ hc (by simpa using hs.symm)
    · simp [sumSizes_append, hs]
  unfold appendField
  by_cases h1 : nm ∈ fieldNames { s with currentSize := s.currentSize + fsize }
  · simp only [h1, if_true]
    by_cases h2 : (setUniqueFieldName
        { s with currentSize := s.currentSize + fsize }.counters
        (nm ++ "[]")).2 ∈ fieldNames { s with
          currentSize := s.currentSize + fsize,
          counters := (setUniqueFieldName
            { s with currentSize := s.currentSize + fsize }.counters
            (nm ++ "[]")).1 }
    · simp only [h2, if_true]
      simp
    · simp only [h2, if_false]
      cases askStop with
      | true =>
        rw [if_pos rfl]
        exact ⟨hlay _, ⟨_, s.currentSize, fsize, isSet, val⟩, rfl, rfl, rfl, rfl⟩
      | false =>
        rw [if_neg (by simp)]
        exact ⟨hlay _, ⟨_, s.currentSize, fsize, isSet, val⟩, rfl, rfl, rfl, rfl⟩
  · simp only [h1, if_false]
    cases askStop with
    | true =>
      rw [if_pos rfl]
      exact ⟨hlay2, ⟨nm, s.currentSize, fsize, isSet, val⟩, rfl, rfl, rfl, rfl⟩
    | false =>
      rw [if_neg (by simp)]
      exact ⟨hlay2, ⟨nm, s.currentSize, fsize, isSet, val⟩, rfl, rfl, rfl, rfl⟩

/-- Post-condition of an appending outcome of `_addField` relative to the
starting state: the layout invariant holds again and exactly one record was
appended, placed at the old `current_size`, which grew by its size. -/
def addOkPost (s s1 : FSState) : Prop :=
  layoutInv s1 ∧ ∃ r : FieldRec, r.address = s.currentSize ∧
    s1.fields = s.fields ++ [r] ∧ s1.currentSize = s.currentSize + r.size

/-- Post-condition of `_addField` relative to the starting state: every
outcome keeps the layout invariant — a dropped field leaves fields and
`current_size` unchanged — except a propagating `UniqKeyError`, which
bumps `current_size` without appending. -/
def addPost (s : FSState) : AddRes → Prop
  | AddRes.ok s1 => addOkPost s s1
  | AddRes.okStop s1 => addOkPost s s1
  | AddRes.dropStop s1 =>
      layoutInv s1 ∧ s1.fields = s.fields ∧ s1.currentSize = s.currentSize
  | AddRes.fail e s1 => e = DErr.uniqKeyError ∨
      (layoutInv s1 ∧ s1.fields = s.fields ∧ s1.currentSize = s.currentSize)

theorem appendField_addPost (s : FSState) (nm : String) (fsize : Nat)
    (isSet : Bool) (val : Nat) (askStop : Bool) (h : layoutInv s) :
    addPost s (appendField s nm s.currentSize fsize isSet val askStop) := by
  have hs := appendField_spec s nm fsize isSet val askStop h
  cases happ : appendField s nm s.currentSize fsize isSet val askStop with
  | ok s1 =>
    rw [happ] at hs
    obtain ⟨h1, r, hr1, _, hr3, hr4⟩ := hs
    exact ⟨h1, r, hr1, hr3, hr4⟩
  | okStop s1 =>
    rw [happ] at hs
    obtain ⟨h1, r, hr1, _, hr3, hr4⟩ := hs
    exact ⟨h1, r, hr1, hr3, hr4⟩
  | dropStop s1 =>
    rw [happ] at hs
    exact hs.elim
  | fail e s1 =>
    rw [happ] at hs
    exact Or.inl hs.1

theorem addFieldSized_addPost (autofix : Bool) (s : FSState) (nm : String)
    (fsize : Nat) (isSet : Bool) (val : Nat) (askStop : Bool)
    (h : layoutInv s) :
    addPost s (addFieldSized autofix s nm s.currentSize fsize isSet val askStop) := by
  unfold addFieldSized
  by_cases htr : (negOpt (checkSizeLoose s (s.currentSize + fsize))
      || (isSet && fsize == 0)) = true
  · rw [if_pos htr]
    cases autofix with
    | false =>
      rw [if_neg (by simp)]
      exact Or.inr ⟨h, rfl, rfl⟩
    | true =>
      rw [if_pos rfl]
      cases hd : checkSizeLoose s (s.currentSize + fsize) with
      | none => exact Or.inr ⟨h, rfl, rfl⟩
      | some d =>
        dsimp only
        by_cases hpos : (0 : Int) < (fsize : Int) + d
        · rw [if_pos hpos]
          by_cases hcomp : (isSet && decide (0 < fsize)) = true
          · rw [if_pos hcomp]
            exact appendField_addPost s nm _ isSet val askStop h
          · rw [if_neg hcomp]
            by_cases hsz : s.size? = none
            · rw [if_pos hsz]
              exact ⟨h, rfl, rfl⟩
            · rw [if_neg hsz]
              exact ⟨h, rfl, rfl⟩
        · rw [if_neg hpos]
          exact ⟨h, rfl, rfl⟩
  · rw [if_neg htr]
    exact appendField_addPost s nm fsize isSet val askStop h

theorem addField_addPost (autofix : Bool) (s : FSState) (f : FieldSpec)
    (h : layoutInv s) : addPost s (addField autofix s f) := by
  unfold addField
  have haddr : (if f.addr = s.currentSize then f.addr else s.currentSize)
      = s.currentSize := by
    split
    · assumption
    · rfl
  cases hsz : f.size? with
  | some n =>
    dsimp only
    rw [haddr]
    exact addFieldSized_addPost autofix _ _ n f.isSet f.val false h
  | none =>
    dsimp only
    by_cases hflag : (f.isSet && (f.currentLen != 0) && f.eofF) = true
    · rw [if_pos hflag, haddr]
      exact addFieldSized_addPost autofix _ _ f.childCur f.isSet f.val true h
    · rw [if_neg hflag]
      exact Or.inr ⟨h, rfl, rfl⟩

theorem contiguousFrom_get (a : Nat) (fs : List FieldRec)
    (h : contiguousFrom a fs) :
    ∀ i, ∀ hi : i < fs.length,
      (fs.get ⟨i, hi⟩).address = a + sumSizes (fs.take i) := by
  induction fs generalizing a with
  | nil =>
    intro i hi
    exact absurd hi (by simp)
  | cons f rest ih =>
    intro i hi
    cases i with
    | zero => simpa [sumSizes] using h.1
    | succ j =>
      have hj : j < rest.length := by simpa using hi
      have := ih (a + f.size) h.2 j hj
      show (rest.get ⟨j, hj⟩).address = _
      rw [this]
      simp [sumSizes]
      ring

theorem contiguousFrom_getLast (fs : List FieldRec)
    (h : contiguousFrom 0 fs) (hne : fs ≠ []) :
    (fs.getLast hne).address + (fs.getLast hne).size = sumSizes fs := by
  have hlen : fs.length - 1 < fs.length :=
    Nat.sub_lt (List.length_pos.mpr hne) Nat.one_pos
  have hget := contiguousFrom_get 0 fs h (fs.length - 1) hlen
  have hlast : fs.getLast hne = fs.get ⟨fs.length - 1, hlen⟩ := by
    rw [List.getLast_eq_getElem]
    simp [List.get_eq_getElem]
  have hsplit : fs.dropLast ++ [fs.getLast hne] = fs :=
    List.dropLast_append_getLast hne
  have htake : fs.take (fs.length - 1) = fs.dropLast :=
    (List.dropLast_eq_take fs).symm
  calc (fs.getLast hne).address + (fs.getLast hne).size
      = sumSizes fs.dropLast + (fs.getLast hne).size := by
        rw [hlast, hget, htake]
        simp
    _ = sumSizes (fs.dropLast ++ [fs.getLast hne]) := by
        rw [sumSizes_append]
    _ = sumSizes fs := by rw [hsplit]

/-- The C1 statement for one `_addField` call on a state satisfying the
layout invariant: the materialised children are contiguous in producer
order (`c₀.address = 0`, each child starts where the previous ends, the
last child ends exactly at `current_size`), and the call preserves this for
every outcome in the sense of `addPost` — the appended field is forced to
address `current_size`, which then grows by its size. -/
def c1Claim (autofix : Bool) (s : FSState) (f : FieldSpec) : Prop :=
  (∀ hh : 0 < s.fields.length, (s.fields.get ⟨0, hh⟩).address = 0) ∧
  (∀ i, ∀ hi : i + 1 < s.fields.length,
    (s.fields.get ⟨i, Nat.lt_of_succ_lt hi⟩).address
      + (s.fields.get ⟨i, Nat.lt_of_succ_lt hi⟩).size
      = (s.fields.get ⟨i + 1, hi⟩).address) ∧
  (∀ hh : s.fields ≠ [],
    (s.fields.getLast hh).address + (s.fields.getLast hh).size
      = s.currentSize) ∧
  addPost s (addField autofix s f)

/-- C1, amended: in a field set satisfying the layout invariant the children
are contiguous in producer order — `c₀.address = 0`, `cᵢ.address + cᵢ.size =
cᵢ₊₁.address`, and the last child ends exactly at `current_size` — and
`_addField` preserves the invariant in every outcome (forcing the appended
field's address to `current_size` and then adding its size to
`current_size`; a dropped field changes neither) **except** when it
propagates `UniqKeyViolation` after a second name collision, where
`current_size` is bumped without an append and the invariant breaks. -/
theorem c1_addField_layout (autofix : Bool) (s : FSState) (f : FieldSpec)
    (h : layoutInv s) : c1Claim autofix s f := by
  obtain ⟨hc, hs⟩ := h
  refine ⟨?_, ?_, ?_, addField_addPost autofix s f ⟨hc, hs⟩⟩
  · intro hh
    simpa [sumSizes] using contiguousFrom_get 0 s.fields hc 0 hh
  · intro i hi
    have h1 := contiguousFrom_get 0 s.fields hc i (Nat.lt_of_succ_lt hi)
    have h2 := contiguousFrom_get 0 s.fields hc (i + 1) hi
    rw [h1, h2]
    have htake : s.fields.take (i + 1)
        = s.fields.take i ++ [s.fields.get ⟨i, Nat.lt_of_succ_lt hi⟩] := by
      have hlt : i < s.fields.length := Nat.lt_of_succ_lt hi
      rw [List.take_succ, List.getElem?_eq_getElem hlt]
      simp [List.get_eq_getElem]
    rw [htake, sumSizes_append]
    ring
  · intro hh
    rw [← hs]
    exact contiguousFrom_getLast s.fields hc hh

def c1wState : FSState :=
  ⟨"root", none, 0, [], some 64, [⟨"a", 0, 8, false, 3⟩], [], 8,
   some [], []⟩

def c1wField : FieldSpec := ⟨"b", 8, some 16, false, 0, false, 0, 5⟩

theorem c1_addField_layout_witness :
    layoutInv c1wState ∧ c1Claim true c1wState c1wField :=
  ⟨by decide, c1_addField_layout true c1wState c1wField (by decide)⟩

def c1ceState : FSState :=
  ⟨"s", none, 0, [], some 1000,
   [⟨"a", 0, 8, false, 0⟩, ⟨"a[0]", 8, 8, false, 0⟩], [], 16, some [], []⟩

def c1ceField : FieldSpec := ⟨"a", 16, some 8, false, 0, false, 0, 0⟩

def c1ceAfter : FSState :=
  ⟨"s", none, 0, [], some 1000,
   [⟨"a", 0, 8, false, 0⟩, ⟨"a[0]", 8, 8, false, 0⟩], [("a", 0)], 24,
   some [], []⟩

theorem sumSizes_reverse (fs : List FieldRec) :
    sumSizes fs.reverse = sumSizes fs := by
  simp [sumSizes, List.sum_reverse]

theorem sumSizes_append_gen (fs gs : List FieldRec) :
    sumSizes (fs ++ gs) = sumSizes fs + sumSizes gs := by
  simp [sumSizes]

theorem dropTrailingRev_spec (n : Nat) :
    ∀ (rev : List FieldRec) (cur : Nat), sumSizes rev = cur →
    ∃ j, j ≤ rev.length ∧
      dropTrailingRev n rev cur = (rev.drop j, sumSizes (rev.drop j), false) ∧
      sumSizes (rev.drop j) ≤ n ∧
      (j = 0 ∨ n < sumSizes (rev.drop (j - 1))) := by
  intro rev
  induction rev with
  | nil =>
    intro cur h
    have hc : cur = 0 := by simpa [sumSizes] using h.symm
    subst hc
    exact ⟨0, by simp, by simp [dropTrailingRev, sumSizes], by simp [sumSizes],
      Or.inl rfl⟩
  | cons f rest ih =>
    intro cur h
    have hsum : f.size + sumSizes rest = cur := by
      simpa [sumSizes] using h
    by_cases hlt : n < cur
    · have hrest : cur - f.size = sumSizes rest := by omega
      obtain ⟨j, hj, heq, hle, hmin⟩ := ih (sumSizes rest) rfl
      refine ⟨j + 1, by simpa using Nat.succ_le_succ hj, ?_, ?_, ?_⟩
      · show dropTrailingRev n (f :: rest) cur = _
        rw [dropTrailingRev, if_pos hlt, hrest, heq]
        simp [List.drop_succ_cons]
      · simpa [List.drop_succ_cons] using hle
      · refine Or.inr ?_
        cases j with
        | zero =>
          have hss : sumSizes (f :: rest) = cur := by simpa [sumSizes] using hsum
          simpa [hss] using hlt
        | succ j0 =>
          rcases hmin with h0 | hmin
          · exact absurd h0 (by simp)
          · simpa [List.drop_succ_cons] using hmin
    · refine ⟨0, by simp, ?_, ?_, Or.inl rfl⟩
      · rw [dropTrailingRev, if_neg hlt]
        simp [h]
      · simpa [h] using Nat.le_of_not_lt hlt

/-- Full specification of `_fixLastField` under the layout sum and the
absence of a literal `raw[]` name: it seals the set, deletes trailing
children only while oversized, and closes the exact slack with a `raw[]`
field, ending with `current_size = n`. -/
theorem fixLastField_spec (s : FSState) (n : Nat)
    (hwf : sumSizes s.fields = s.currentSize)
    (hraw : "raw[]" ∉ fieldNames s) :
    ∃ s1 rawOpt, fixLastField s n = StopRes.ok s1 rawOpt ∧ s1.gen = none ∧
      s1.currentSize = n ∧ s1.size? = s.size? ∧
      ∃ kept deleted, s.fields = kept ++ deleted ∧ sumSizes kept ≤ n ∧
        (∀ hd, deleted.head? = some hd → n < sumSizes kept + hd.size) ∧
        (match rawOpt with
         | none => s1.fields = kept ∧ sumSizes kept = n
         | some r => s1.fields = kept ++ [r] ∧ r.name = "raw[]" ∧
             r.address = sumSizes kept ∧ r.size = n - sumSizes kept ∧
             sumSizes kept < n) := by
  obtain ⟨j, hj, heq, hle, hmin⟩ :=
    dropTrailingRev_spec n s.fields.reverse s.currentSize
      (by rw [sumSizes_reverse]; exact hwf)
  set rev := s.fields.reverse with hrev
  set kept := (rev.drop j).reverse with hkept
  set deleted := (rev.take j).reverse with hdel
  have hflds : s.fields = kept ++ deleted := by
    have h1 : rev = rev.take j ++ rev.drop j := (List.take_append_drop j rev).symm
    have h2 : s.fields = rev.reverse := by
      rw [hrev, List.reverse_reverse]
    rw [h2, h1, List.reverse_append]
  have hkeptsum : sumSizes kept = sumSizes (rev.drop j) := by
    rw [hkept, sumSizes_reverse]
  have hkle : sumSizes kept ≤ n := by rw [hkeptsum]; exact hle
  have hmin2 : ∀ hd, deleted.head? = some hd → n < sumSizes kept + hd.size := by
    intro hd hhd
    cases j with
    | zero =>
      rw [hdel] at hhd
      simp at hhd
    | succ j0 =>
      have hj0 : j0 < rev.length := hj
      have hdrop : rev.drop j0 = rev.get ⟨j0, hj0⟩ :: rev.drop (j0 + 1) := by
        rw [List.drop_eq_getElem_cons hj0]
        simp [List.get_eq_getElem]
      rcases hmin with h0 | hmin
      · exact absurd h0 (by simp)
      · have hlt : n < sumSizes (rev.drop j0) := by simpa using hmin
        have hhead : deleted.head? = some (rev.get ⟨j0, hj0⟩) := by
          rw [hdel, List.head?_reverse]
          have htk : rev.take (j0 + 1) = rev.take j0 ++ [rev.get ⟨j0, hj0⟩] := by
            rw [List.take_succ, List.getElem?_eq_getElem hj0]
            simp [List.get_eq_getElem]
          rw [htk, List.getLast?_concat]
        have hhd2 : hd = rev.get ⟨j0, hj0⟩ := by
          rw [hhd] at hhead
          exact Option.some.inj hhead
        rw [hhd2]
        have hsz : sumSizes (rev.drop j0)
            = (rev.get ⟨j0, hj0⟩).size + sumSizes (rev.drop (j0 + 1)) := by
          rw [hdrop]
          simp only [sumSizes, List.map_cons, List.sum_cons]
        omega
  have hnames : fieldNames s = kept.map FieldRec.name ++ deleted.map FieldRec.name := by
    rw [show fieldNames s = s.fields.map FieldRec.name from rfl, hflds]
    simp
  have hrawkept : ("raw[]" : String) ∉ kept.map FieldRec.name := by
    intro hmem
    exact hraw (by rw [hnames]; exact List.mem_append_left _ hmem)
  have hc1 : fixLastField s n =
      (if n - sumSizes kept = 0 then
        StopRes.ok { s with
          gen := none,
          fields := kept,
          currentSize := sumSizes kept } none
      else
        StopRes.ok { s with
          gen := none,
          fields := kept ++ [createRawField (sumSizes kept) (n - sumSizes kept)],
          currentSize := sumSizes kept + (n - sumSizes kept) }
          (some (createRawField (sumSizes kept) (n - sumSizes kept)))) := by
    simp only [fixLastField]
    rw [show ({ s with gen := none } : FSState).fields.reverse = rev from rfl,
        show ({ s with gen := none } : FSState).currentSize = s.currentSize from rfl,
        heq]
    rw [← hkeptsum]
    dsimp only
    simp only [Bool.false_eq_true, if_false]
    by_cases hslack : n - sumSizes kept = 0
    · rw [if_pos hslack, if_pos hslack]
    · rw [if_neg hslack, if_neg hslack]
      simp only [createRawField]
      have hmem : ("raw[]" : String)
          ∉ fieldNames { s with
              gen := none,
              fields := (rev.drop j).reverse,
              currentSize := sumSizes kept + (n - sumSizes kept) } := by
        show ("raw[]" : String) ∉ ((rev.drop j).reverse).map FieldRec.name
        rw [← hkept]
        exact hrawkept
      rw [if_neg hmem]
  rw [hc1]
  by_cases hslack : n - sumSizes kept = 0
  · rw [if_pos hslack]
    refine ⟨_, none, rfl, rfl, ?_, rfl, kept, deleted, hflds, hkle, hmin2, rfl, ?_⟩
    · show sumSizes kept = n
      omega
    · omega
  · rw [if_neg hslack]
    refine ⟨_, some (createRawField (sumSizes kept) (n - sumSizes kept)),
      rfl, rfl, ?_, rfl, kept, deleted, hflds, hkle, hmin2, rfl, rfl, rfl, rfl, ?_⟩
    · show sumSizes kept + (n - sumSizes kept) = n
      omega
    · omega

/-- The C2 statement for `_stopFeeding` on a field set `s`: (a) with
unknown size and a parent, sealing records `size = current_size`; (b) with
known size differing from `current_size` and auto-fix disabled, a
`ParserError` is raised; (c) with known size and auto-fix enabled, the set
seals with trailing children deleted only while oversized and a `raw[]`
field of exactly `size - current_size` bits appended when slack remains,
ending with `current_size = size`; (d) every sealed outcome with known size
satisfies `current_size = size`, and sealing clears the generator. -/
def c2Claim (autofix : Bool) (s : FSState) : Prop :=
  (s.size? = none → s.ancestors.isEmpty = false →
    ∃ s1, stopFeeding autofix s = StopRes.ok s1 none ∧
      s1.size? = some s.currentSize ∧ s1.fields = s.fields ∧
      s1.currentSize = s.currentSize ∧ s1.gen = none) ∧
  (∀ n, s.size? = some n → n ≠ s.currentSize → autofix = false →
    ∃ msg, stopFeeding autofix s = StopRes.fail (DErr.parserError msg) s) ∧
  (∀ n, s.size? = some n → autofix = true →
    ∃ s1 rawOpt, stopFeeding autofix s = StopRes.ok s1 rawOpt ∧
      s1.gen = none ∧ s1.currentSize = n ∧
      ∃ kept deleted, s.fields = kept ++ deleted ∧ sumSizes kept ≤ n ∧
        (∀ hd, deleted.head? = some hd → n < sumSizes kept + hd.size) ∧
        (match rawOpt with
         | none => s1.fields = kept ∧ sumSizes kept = n
         | some r => s1.fields = kept ++ [r] ∧ r.name = "raw[]" ∧
             r.size = n - sumSizes kept ∧ sumSizes kept < n)) ∧
  (∀ s1 rawOpt, stopFeeding autofix s = StopRes.ok s1 rawOpt →
    s1.gen = none ∧ ∀ n, s1.size? = some n → s1.currentSize = n)

/-- C2: when the producer signals end-of-sequence, `_stopFeeding` sets
`size = current_size` for a parented set of unknown size; raises
`ParserError` when a known size differs from `current_size` and auto-fix is
off; otherwise deletes trailing children until `current_size ≤ size` and
appends a synthetic `raw[]` of exactly `size - current_size` bits; every
sealed set with known size then satisfies `current_size = size`, and the
field generator is cleared on sealing. -/
theorem c2_stopFeeding (autofix : Bool) (s : FSState)
    (hwf : sumSizes s.fields = s.currentSize)
    (hraw : "raw[]" ∉ fieldNames s) : c2Claim autofix s := by
  refine ⟨?_, ?_, ?_, ?_⟩
  · intro hnone hanc
    refine ⟨{ s with size? := some s.currentSize, gen := none },
      ?_, rfl, rfl, rfl, rfl⟩
    unfold stopFeeding
    rw [hnone]
    dsimp only
    rw [if_neg (by rw [hanc]; exact Bool.false_ne_true)]
  · intro n hn hne hfix
    refine ⟨"invalid parser size", ?_⟩
    unfold stopFeeding
    rw [hn]
    dsimp only
    rw [if_pos hne, hfix]
    rw [if_neg Bool.false_ne_true]
  · intro n hn hfix
    by_cases hne : n = s.currentSize
    · refine ⟨{ s with gen := none }, none, ?_, rfl, hne.symm ▸ rfl,
        s.fields, [], by simp, ?_, by simp, rfl, by rw [← hne] at hwf; exact hwf⟩
      · unfold stopFeeding
        rw [hn]
        dsimp only
        rw [if_neg (by simpa using hne)]
      · rw [hwf, ← hne]
    · obtain ⟨s1, rawOpt, hfl, hgen, hcur, _, kept, deleted, h1, h2, h3, h4⟩ :=
        fixLastField_spec s n hwf hraw
      refine ⟨s1, rawOpt, ?_, hgen, hcur, kept, deleted, h1, h2, h3, ?_⟩
      · unfold stopFeeding
        rw [hn]
        dsimp only
        rw [if_pos hne, hfix, if_pos rfl]
        exact hfl
      · cases rawOpt with
        | none => exact h4
        | some r => exact ⟨h4.1, h4.2.1, h4.2.2.2.1, h4.2.2.2.2⟩
  · intro s1 rawOpt hok
    cases hsz : s.size? with
    | none =>
      unfold stopFeeding at hok
      rw [hsz] at hok
      dsimp only at hok
      by_cases hanc : s.ancestors.isEmpty = true
      · rw [if_pos hanc] at hok
        have hs1 : s1 = { s with size? := none, gen := none } := by
          cases hok
          rw [hsz]
        subst hs1
        refine ⟨rfl, ?_⟩
        intro n hn
        cases hn
      · rw [if_neg hanc] at hok
        have hs1 : s1 = { s with size? := some s.currentSize, gen := none } := by
          cases hok
          rfl
        subst hs1
        refine ⟨rfl, ?_⟩
        intro n hn
        have : some s.currentSize = some n := hn
        have := Option.some.inj this
        show s.currentSize = n
        exact this
    | some m =>
      unfold stopFeeding at hok
      rw [hsz] at hok
      dsimp only at hok
      by_cases hne : m ≠ s.currentSize
      · rw [if_pos hne] at hok
        cases hfix : autofix with
        | false =>
          rw [hfix, if_neg Bool.false_ne_true] at hok
          cases hok
        | true =>
          rw [hfix, if_pos rfl] at hok
          obtain ⟨s1', rawOpt', hfl, hgen, hcur, hsz1, _⟩ :=
            fixLastField_spec s m hwf hraw
          rw [hfl] at hok
          have hs1 : s1' = s1 ∧ rawOpt' = rawOpt := by
            cases hok
            exact ⟨rfl, rfl⟩
          obtain ⟨he1, _⟩ := hs1
          subst he1
          refine ⟨hgen, ?_⟩
          intro n hn
          rw [hsz1, hsz] at hn
          have := Option.some.inj hn
          rw [hcur, this]
      · rw [if_neg hne] at hok
        have hs1 : s1 = { s with size? := some m, gen := none } := by
          cases hok
          rfl
        subst hs1
        refine ⟨rfl, ?_⟩
        intro n hn
        have h1 := Option.some.inj (show some m = some n from hn)
        show s.currentSize = n
        omega

def c2wState : FSState :=
  ⟨"s", none, 0, [], some 20,
   [⟨"a", 0, 8, false, 0⟩, ⟨"b", 8, 8, false, 0⟩, ⟨"c", 16, 8, false, 0⟩],
   [], 24, some [], []⟩

theorem c2_stopFeeding_witness :
    sumSizes c2wState.fields = c2wState.currentSize ∧
    "raw[]" ∉ fieldNames c2wState ∧ c2Claim true c2wState :=
  ⟨by decide, by decide, c2_stopFeeding true c2wState (by decide) (by decide)⟩

/-- C3, amended: in `_addField`, when the remaining-space computation
yields `some d` with `d < 0`, or the child is a zero-sized composite (with
a known bound): auto-fix disabled raises `ParserError` ("too large");
auto-fix enabled truncates the child to the remaining space `field.size + d`
and appends it when the child is a composite of positive size **and the
remaining space is positive**, and otherwise drops it (not appended,
`current_size` unchanged) and stops the producer run via `StopIteration`. -/
theorem c3_addField_too_large (autofix : Bool) (s : FSState) (f : FieldSpec)
    (fsize : Nat) (d : Int)
    (hsz : f.size? = some fsize)
    (hname : strEndsWith f.name "[]" = false)
    (hfresh : f.name ∉ fieldNames s)
    (hd : checkSizeLoose s (s.currentSize + fsize) = some d)
    (htrig : d < 0 ∨ (f.isSet = true ∧ fsize = 0)) :
    (autofix = false →
      addField autofix s f = AddRes.fail (DErr.parserError "too large") s) ∧
    (autofix = true → 0 < (fsize : Int) + d → f.isSet = true → 0 < fsize →
      addField autofix s f = AddRes.ok { s with
        fields := s.fields ++
          [⟨f.name, s.currentSize, ((fsize : Int) + d).toNat, f.isSet, f.val⟩],
        currentSize := s.currentSize + ((fsize : Int) + d).toNat }) ∧
    (autofix = true → ¬(0 < (fsize : Int) + d ∧ f.isSet = true ∧ 0 < fsize) →
      ∃ s2, addField autofix s f = AddRes.dropStop s2 ∧
        s2.fields = s.fields ∧ s2.currentSize = s.currentSize) := by
  have hstep : addField autofix s f
      = addFieldSized autofix s f.name s.currentSize fsize f.isSet f.val false := by
    unfold addField
    rw [hsz]
    dsimp only
    rw [if_neg (by rw [hname]; exact Bool.false_ne_true)]
    dsimp only
    by_cases ha : f.addr = s.currentSize
    · rw [if_pos ha, ha]
    · rw [if_neg ha]
  have htrig2 : (negOpt (checkSizeLoose s (s.currentSize + fsize))
      || (f.isSet && fsize == 0)) = true := by
    rw [hd]
    rcases htrig with h | ⟨h1, h2⟩
    · simp [negOpt, h]
    · simp [h1, h2]
  refine ⟨?_, ?_, ?_⟩
  · intro hfix
    subst hfix
    rw [hstep]
    unfold addFieldSized
    dsimp only
    rw [if_pos htrig2, if_neg Bool.false_ne_true]
  · intro hfix hpos hset hfs
    subst hfix
    rw [hstep]
    unfold addFieldSized
    dsimp only
    rw [if_pos htrig2, if_pos rfl, hd]
    dsimp only
    rw [if_pos hpos, if_pos (by rw [hset]; simpa using hfs)]
    unfold appendField
    rw [if_neg (by simpa [fieldNames] using hfresh)]
    rw [if_neg Bool.false_ne_true]
  · intro hfix hng
    subst hfix
    rw [hstep]
    unfold addFieldSized
    dsimp only
    rw [if_pos htrig2, if_pos rfl, hd]
    dsimp only
    by_cases hpos : 0 < (fsize : Int) + d
    · rw [if_pos hpos]
      have hcomp : (f.isSet && decide (0 < fsize)) = false := by
        rcases Bool.eq_false_or_eq_true f.isSet with h | h
        · have hnlt : ¬0 < fsize := fun hlt => hng ⟨hpos, h, hlt⟩
          have hz : fsize = 0 := by omega
          simp [h, hz]
        · simp [h]
      rw [hcomp]
      rw [if_neg Bool.false_ne_true]
      by_cases hs0 : s.size? = none
      · rw [if_pos hs0]
        exact ⟨_, rfl, rfl, rfl⟩
      · rw [if_neg hs0]
        exact ⟨_, rfl, rfl, rfl⟩
    · rw [if_neg hpos]
      exact ⟨_, rfl, rfl, rfl⟩

def c3wState : FSState :=
  ⟨"s", none, 4, [(0, some 100)], none, [], [], 0, some [], []⟩

def c3wField : FieldSpec := ⟨"big", 0, some 120, true, 0, false, 0, 0⟩

theorem c3_addField_too_large_witness :
    addField true c3wState c3wField = AddRes.ok { c3wState with
      fields := c3wState.fields ++
        [⟨c3wField.name, c3wState.currentSize,
          (((120 : Nat) : Int) + (-24)).toNat, c3wField.isSet, c3wField.val⟩],
      currentSize := c3wState.currentSize + (((120 : Nat) : Int) + (-24)).toNat } :=
  (c3_addField_too_large true c3wState c3wField 120 (-24) rfl (by decide)
    (by decide) (by decide) (Or.inl (by decide))).2.1 rfl (by decide) rfl
    (by decide)

def c3ceState : FSState :=
  ⟨"s", none, 0, [], some 8, [⟨"x", 0, 8, false, 0⟩], [], 8, some [], []⟩

def c3ceField : FieldSpec := ⟨"c", 8, some 4, true, 0, false, 0, 0⟩

/-- C3, counterexample to the claim as stated: a composite child of
positive size 4 arriving when the 8-bit set is already full (`d = -4 < 0`,
auto-fix on) is **dropped** — `_fixFieldSize` computes `new_size = 0` and
raises `StopIteration` without truncating — although the claim says a
composite of positive size is truncated to the remaining space. -/
theorem c3_counterexample :
    checkSizeLoose c3ceState (c3ceState.currentSize + 4) = some (-4) ∧
    c3ceField.isSet = true ∧ c3ceField.size? = some 4 ∧
    addField true c3ceState c3ceField = AddRes.dropStop c3ceState := by
  decide

/-- C1, counterexample to the claim as stated: a field set holding fields
`a` and `a[0]` satisfies the layout invariant, yet `_addField` of a fresh
field named `a` (renamed to `a[0]`, colliding again) propagates
`UniqKeyError` after bumping `current_size` to 24 while the children still
sum to 16 — so the last child no longer ends at `current_size` at that
point of the parse. -/
theorem c1_counterexample :
    layoutInv c1ceState ∧
    addField true c1ceState c1ceField
      = AddRes.fail DErr.uniqKeyError c1ceAfter ∧
    sumSizes c1ceAfter.fields = 16 ∧ c1ceAfter.currentSize = 24 ∧
    ¬ layoutInv c1ceAfter := by decide

theorem strDropRight_append (key : String) :
    strDropRight (key ++ "[]") 2 = key := by
  unfold strDropRight
  have hdata : (key ++ "[]").data = key.data ++ ('[' :: [']']) := by
    cases key with
    | mk l => rfl
  rw [hdata]
  have hlen : (key.data ++ ('[' :: [']'])).length - 2 = key.data.length := by
    simp
  rw [hlen]
  rw [List.take_left]

/-- The C4 statement: (a) `setUniqueFieldName` maps `key[]` to `key[0]` on
the first use of `key` and to `key[c+1]` when the counter holds `c`;
(b) an `_addField` append hitting an existing name is renamed with a
suffixed `"[]"`, re-numbered through the same counter and retried — the
retry appends when the re-numbered name is fresh and propagates
`UniqKeyError` when it is also taken. -/
def c4Claim (s : FSState) (nm : String) (fsize : Nat) (isSet : Bool)
    (val : Nat) : Prop :=
  (∀ key : String, lookupCount s.counters key = none →
    setUniqueFieldName s.counters (key ++ "[]")
      = (setCount s.counters key 0, key ++ "[" ++ toString (0 : Nat) ++ "]")) ∧
  (∀ key : String, ∀ c, lookupCount s.counters key = some c →
    setUniqueFieldName s.counters (key ++ "[]")
      = (setCount s.counters key (c + 1),
         key ++ "[" ++ toString (c + 1) ++ "]")) ∧
  (nm ∈ fieldNames s →
    ((setUniqueFieldName s.counters (nm ++ "[]")).2 ∉ fieldNames s →
      appendField s nm s.currentSize fsize isSet val false
        = AddRes.ok { s with
            counters := (setUniqueFieldName s.counters (nm ++ "[]")).1,
            currentSize := s.currentSize + fsize,
            fields := s.fields ++
              [⟨(setUniqueFieldName s.counters (nm ++ "[]")).2,
                s.currentSize, fsize, isSet, val⟩] }) ∧
    ((setUniqueFieldName s.counters (nm ++ "[]")).2 ∈ fieldNames s →
      appendField s nm s.currentSize fsize isSet val false
        = AddRes.fail DErr.uniqKeyError { s with
            counters := (setUniqueFieldName s.counters (nm ++ "[]")).1,
            currentSize := s.currentSize + fsize }))

/-- C4, amended: a name ending in `"[]"` is replaced by `key[k]` where `k`
is the per-key counter (0 on first use, incremented on each later use); a
field whose final name already exists is renamed by suffixing `"[]"`,
re-numbered through the same counter and appended on retry **when the
re-numbered name is not already taken — otherwise `UniqKeyViolation` does
propagate to the caller**. -/
theorem c4_unique_names (s : FSState) (nm : String) (fsize : Nat)
    (isSet : Bool) (val : Nat) : c4Claim s nm fsize isSet val := by
  refine ⟨?_, ?_, ?_⟩
  · intro key hnone
    unfold setUniqueFieldName
    rw [strDropRight_append]
    dsimp only
    rw [hnone]
  · intro key c hsome
    unfold setUniqueFieldName
    rw [strDropRight_append]
    dsimp only
    rw [hsome]
  · intro hmem
    constructor
    · intro hfresh
      unfold appendField
      dsimp only
      split
      next h1 =>
        split
        next h2 => exact absurd h2 hfresh
        next h2 =>
          rw [if_neg Bool.false_ne_true]
      next h1 => exact absurd hmem h1
    · intro htaken
      unfold appendField
      dsimp only
      split
      next h1 =>
        split
        next h2 => rfl
        next h2 => exact absurd htaken h2
      next h1 => exact absurd hmem h1

def c4wState : FSState :=
  ⟨"s", none, 0, [], some 1000, [⟨"b", 0, 8, false, 0⟩], [], 8, some [], []⟩

theorem c4_unique_names_witness : c4Claim c4wState "b" 8 false 0 :=
  c4_unique_names c4wState "b" 8 false 0

def c4ceState : FSState :=
  ⟨"s", none, 0, [], some 1000,
   [⟨"b", 0, 8, false, 0⟩, ⟨"b[0]", 8, 8, false, 0⟩], [], 16,
   some [ProdItem.yieldF ⟨"b", 16, some 8, false, 0, false, 0, 0⟩],
   [ProdItem.yieldF ⟨"b", 16, some 8, false, 0, false, 0, 0⟩]⟩

/-- C4, counterexample to the claim as stated: with fields `b` and `b[0]`
already present, pulling one more field named `b` renames it to `b[0]`
(counter for `b` starts at 0), which is also taken — the second
`self._fields.append` raises `UniqKeyError`, which `readMoreFields`
(auto-fix off, `_fixFeedError` returns `False`) re-raises to the caller,
refuting "never propagates UniqueKeyViolation to the caller". -/
theorem c4_counterexample :
    (readMoreFields false 1 c4ceState).2 = some DErr.uniqKeyError ∧
    (readMoreFields false 1 c4ceState).1.fields = c4ceState.fields := by
  decide

/-- A replacement field handed to `replaceField` / `writeFieldsIn`: an
already-constructed field whose name, size and value are known. -/
structure NewField where
  name : String
  size : Nat
  isSet : Bool
  val : Nat
deriving Repr, DecidableEq

/-- The events `replaceField` raises through `raiseEvent`. -/
inductive FSEvent where
  | fieldReplaced (oldName newName : String)
  | fieldInsered (index : Nat) (name : String)
deriving Repr, DecidableEq

/-- Name lookup in the ordered field list (`self._fields[name]`). -/
def findField : List FieldRec → String → Option FieldRec
  | [], _ => none
  | f :: rest, nm => if f.name = nm then some f else findField rest nm

/-- `self._fields.index(name)`: position of the first field with the name. -/
def indexOfName : List FieldRec → String → Nat
  | [], _ => 0
  | f :: rest, nm => if f.name = nm then 0 else indexOfName rest nm + 1

/-- `Dict.replace(old_name, new_name, value)`: in-place replacement at the
old name's index. -/
def replaceByName : List FieldRec → String → FieldRec → List FieldRec
  | [], _, _ => []
  | f :: rest, nm, r => if f.name = nm then r :: rest else f :: replaceByName rest nm r

/-- `Dict.insert(index, key, value)` (modelled from the spec:
`OrderedUniqueMap.insert_at`, section 4.3 — the dict module is not under
`src/`): insert at the given position. -/
def insertAtIdx (fs : List FieldRec) (idx : Nat) (r : FieldRec) : List FieldRec :=
  fs.take idx ++ r :: fs.drop idx

/-- The `for field in new_fields[1:]` loop of `replaceField`: rename a
`"[]"` name, fail on a name already used, set the field's address, insert
at the running index and raise `field-insered`. -/
def insertLoop : FSState → List FSEvent → Nat → Nat → List NewField →
    FSState × List FSEvent × Option DErr
  | s, evs, _, _, [] => (s, evs, none)
  | s, evs, idx, addr, nf :: rest =>
    let p := if strEndsWith nf.name "[]" then setUniqueFieldName s.counters nf.name
             else (s.counters, nf.name)
    let s1 : FSState := { s with counters := p.1 }
    if p.2 ∈ fieldNames s1 then
      (s1, evs, some (DErr.parserError "name already used"))
    else
      let s2 : FSState := { s1 with
        fields := insertAtIdx s1.fields idx ⟨p.2, addr, nf.size, nf.isSet, nf.val⟩ }
      insertLoop s2 (evs ++ [FSEvent.fieldInsered idx p.2]) (idx + 1)
        (addr + nf.size) rest

/-- `GenericFieldSet.replaceField(name, new_fields)`: fail when the name is
not a materialised field or the total size differs; else replace the old
field by the first new field (renamed if `"[]"`, at the old address),
raise `field-replaced`, and insert the remaining fields after it at
consecutive addresses, raising `field-insered` for each. -/
def replaceField (s : FSState) (name : String) (newFields : List NewField) :
    FSState × List FSEvent × Option DErr :=
  if name ∈ fieldNames s then
    match newFields with
    | [] => (s, [], some DErr.assertFail)
    | f0 :: rest =>
      match findField s.fields name with
      | none => (s, [], some DErr.assertFail)
      | some old =>
        let total := ((f0 :: rest).map NewField.size).sum
        if old.size ≠ total then
          (s, [], some (DErr.parserError "size mismatch"))
        else
          let p := if strEndsWith f0.name "[]" then
                     setUniqueFieldName s.counters f0.name
                   else (s.counters, f0.name)
          let s1 : FSState := { s with counters := p.1 }
          if p.2 ≠ name ∧ p.2 ∈ fieldNames s1 then
            (s1, [], some (DErr.parserError "name already used"))
          else
            let rec0 : FieldRec := ⟨p.2, old.address, f0.size, f0.isSet, f0.val⟩
            let s2 : FSState := { s1 with
              fields := replaceByName s1.fields name rec0 }
            insertLoop s2 [FSEvent.fieldReplaced name p.2]
              (indexOfName s2.fields p.2 + 1) (old.address + f0.size) rest
  else (s, [], some (DErr.parserError "field does not exist"))

/-- The `field-insered` events raised for a run of consecutively inserted
fields starting at the given index. -/
def inseredEvents : Nat → List FieldRec → List FSEvent
  | _, [] => []
  | idx, r :: rest => FSEvent.fieldInsered idx r.name :: inseredEvents (idx + 1) rest

theorem findField_split (fs : List FieldRec) (nm : String)
    (hmem : nm ∈ fs.map FieldRec.name) :
    ∃ pre x post, fs = pre ++ x :: post ∧ indexOfName fs nm = pre.length ∧
      x.name = nm ∧ nm ∉ pre.map FieldRec.name ∧
      findField fs nm = some x ∧
      ∀ r, replaceByName fs nm r = pre ++ r :: post := by
  induction fs with
  | nil => exact absurd hmem (by simp)
  | cons f rest ih =>
    by_cases hf : f.name = nm
    · refine ⟨[], f, rest, by simp, ?_, hf, by simp, ?_, ?_⟩
      · simp [indexOfName, hf]
      · simp [findField, hf]
      · intro r
        simp [replaceByName, hf]
    · have hmem2 : nm ∈ rest.map FieldRec.name := by
        rcases (by simpa using hmem : nm = f.name ∨ ∃ a ∈ rest, a.name = nm)
          with h | h
        · exact absurd h.symm hf
        · simpa using h
      obtain ⟨pre, x, post, h1, h2, h3, h4, h5, h6⟩ := ih hmem2
      refine ⟨f :: pre, x, post, by simp [h1], ?_, h3, ?_, ?_, ?_⟩
      · simp [indexOfName, hf, h2]
      · simp [h4]
        intro hc
        exact hf hc.symm
      · simp [findField, hf, h5]
      · intro r
        simp [replaceByName, hf, h6 r]

theorem indexOfName_append (pre : List FieldRec) (r : FieldRec)
    (post : List FieldRec) (h : r.name ∉ pre.map FieldRec.name) :
    indexOfName (pre ++ r :: post) r.name = pre.length := by
  induction pre with
  | nil => simp [indexOfName]
  | cons f rest ih =>
    have hf : f.name ≠ r.name := by
      intro hc
      exact h (by simp [hc])
    have hr : r.name ∉ rest.map FieldRec.name := by
      intro hc
      exact h (by simp [hc])
    simp [indexOfName, hf, ih hr]

theorem insertLoop_spec (nfs : List NewField) :
    ∀ (s : FSState) (evs : List FSEvent) (addr : Nat)
      (pre post : List FieldRec), s.fields = pre ++ post →
    ∃ s1 evs1 err recs,
      insertLoop s evs pre.length addr nfs = (s1, evs1, err) ∧
      s1.fields = pre ++ recs ++ post ∧
      evs1 = evs ++ inseredEvents pre.length recs ∧
      recs.map FieldRec.size = (nfs.take recs.length).map NewField.size ∧
      contiguousFrom addr recs ∧
      (err = none → recs.length = nfs.length) ∧
      (∀ e, err = some e → (∃ msg, e = DErr.parserError msg) ∧
        recs.length < nfs.length) := by
  induction nfs with
  | nil =>
    intro s evs addr pre post hf
    refine ⟨s, evs, none, [], rfl, by simpa using hf, by simp [inseredEvents],
      by simp, trivial, fun _ => rfl, ?_⟩
    intro e he
    cases he
  | cons nf rest ih =>
    intro s evs addr pre post hf
    show ∃ _, _
    unfold insertLoop
    dsimp only
    by_cases hmem : (if strEndsWith nf.name "[]" then
        setUniqueFieldName s.counters nf.name
      else (s.counters, nf.name)).2 ∈ fieldNames { s with
        counters := (if strEndsWith nf.name "[]" then
          setUniqueFieldName s.counters nf.name
        else (s.counters, nf.name)).1 }
    · rw [if_pos hmem]
      refine ⟨_, evs, some (DErr.parserError "name already used"), [], rfl,
        by simpa using hf, by simp [inseredEvents], by simp, trivial, ?_, ?_⟩
      · intro hc
        cases hc
      · intro e he
        refine ⟨⟨"name already used", ?_⟩, by simp⟩
        cases he
        rfl
    · rw [if_neg hmem]
      set p := if strEndsWith nf.name "[]" then
          setUniqueFieldName s.counters nf.name
        else (s.counters, nf.name) with hp
      set rec1 : FieldRec := ⟨p.2, addr, nf.size, nf.isSet, nf.val⟩ with hrec
      have hfields : ({ s with
          counters := p.1,
          fields := insertAtIdx ({ s with counters := p.1 } : FSState).fields
            pre.length rec1 } : FSState).fields
          = (pre ++ [rec1]) ++ post := by
        show insertAtIdx s.fields pre.length rec1 = (pre ++ [rec1]) ++ post
        rw [hf]
        unfold insertAtIdx
        rw [List.take_left, List.drop_left]
        simp
      obtain ⟨s1, evs1, err, recs, h1, h2, h3, h4, h5, h6, h7⟩ :=
        ih _ (evs ++ [FSEvent.fieldInsered pre.length rec1.name])
          (addr + nf.size) (pre ++ [rec1]) post hfields
      rw [show (pre ++ [rec1]).length = pre.length + 1 by simp] at h1
      refine ⟨s1, evs1, err, rec1 :: recs, h1, ?_, ?_, ?_, ?_, ?_, ?_⟩
      · rw [h2]
        simp
      · rw [h3]
        simp [inseredEvents]
      · simpa using h4
      · exact ⟨rfl, h5⟩
      · intro he
        have := h6 he
        simp [this]
      · intro e he
        obtain ⟨hmsg, hlen⟩ := h7 e he
        exact ⟨hmsg, by simpa using Nat.succ_lt_succ hlen⟩

theorem replaceField_run (s : FSState) (name : String) (f0 : NewField)
    (rest : List NewField) (p : List (String × Nat) × String)
    (hmem : name ∈ fieldNames s)
    (hp : p = if strEndsWith f0.name "[]" then
        setUniqueFieldName s.counters f0.name
      else (s.counters, f0.name)) :
    ∃ old, findField s.fields name = some old ∧
    (old.size ≠ ((f0 :: rest).map NewField.size).sum →
      replaceField s name (f0 :: rest)
        = (s, [], some (DErr.parserError "size mismatch"))) ∧
    (old.size = ((f0 :: rest).map NewField.size).sum →
      (p.2 ≠ name ∧ p.2 ∈ fieldNames s →
        replaceField s name (f0 :: rest)
          = ({ s with counters := p.1 }, [],
             some (DErr.parserError "name already used"))) ∧
      (¬(p.2 ≠ name ∧ p.2 ∈ fieldNames s) →
        ∃ s1 evs err recs,
          replaceField s name (f0 :: rest) = (s1, evs, err) ∧
          s1.fields = s.fields.take (indexOfName s.fields name)
            ++ (⟨p.2, old.address, f0.size, f0.isSet, f0.val⟩ :: recs)
            ++ s.fields.drop (indexOfName s.fields name + 1) ∧
          evs = FSEvent.fieldReplaced name p.2
            :: inseredEvents (indexOfName s.fields name + 1) recs ∧
          contiguousFrom (old.address + f0.size) recs ∧
          recs.map FieldRec.size = (rest.take recs.length).map NewField.size ∧
          (err = none → recs.length = rest.length) ∧
          (∀ e, err = some e → (∃ msg, e = DErr.parserError msg) ∧
            recs.length < rest.length))) := by
  obtain ⟨pre, x, post, hsplit, hidx, hxname, hxpre, hfind, hrepl⟩ :=
    findField_split s.fields name hmem
  refine ⟨x, hfind, ?_, ?_⟩
  · intro hne
    unfold replaceField
    rw [if_pos hmem]
    dsimp only
    rw [hfind]
    dsimp only
    rw [if_pos hne]
  · intro heq
    constructor
    · intro hcol
      unfold replaceField
      rw [if_pos hmem]
      dsimp only
      rw [hfind]
      dsimp only
      rw [if_neg (by simp [heq]), ← hp]
      split
      next h => rfl
      next h => exact absurd hcol h
    · intro hncol
      have hkey : p.2 ∉ pre.map FieldRec.name := by
        by_cases hpn : p.2 = name
        · rw [hpn]
          exact hxpre
        · have : p.2 ∉ fieldNames s := fun hin => hncol ⟨hpn, hin⟩
          intro hin
          apply this
          show p.2 ∈ s.fields.map FieldRec.name
          rw [hsplit]
          simp only [List.map_append, List.map_cons]
          exact List.mem_append_left _ hin
      set rec0 : FieldRec := ⟨p.2, x.address, f0.size, f0.isSet, f0.val⟩ with hrec0
      have hreplaced : replaceByName s.fields name rec0 = pre ++ rec0 :: post :=
        hrepl rec0
      have hidx2 : indexOfName (pre ++ rec0 :: post) p.2 = pre.length :=
        indexOfName_append pre rec0 post hkey
      have hfields2 : (pre ++ rec0 :: post) = (pre ++ [rec0]) ++ post := by
        simp
      obtain ⟨s1, evs1, err, recs, h1, h2, h3, h4, h5, h6, h7⟩ :=
        insertLoop_spec rest { s with
            counters := p.1,
            fields := replaceByName s.fields name rec0 }
          [FSEvent.fieldReplaced name p.2] (x.address + f0.size)
          (pre ++ [rec0]) post
          (by show replaceByName s.fields name rec0 = _
              rw [hreplaced, hfields2])
      refine ⟨s1, evs1, err, recs, ?_, ?_, ?_, h5, h4, h6, h7⟩
      · unfold replaceField
        rw [if_pos hmem]
        dsimp only
        rw [hfind]
        dsimp only
        rw [if_neg (by simp [heq]), ← hp]
        split
        next h => exact absurd h hncol
        next h =>
          show insertLoop _ _
              (indexOfName (replaceByName s.fields name rec0) p.2 + 1) _ _ = _
          rw [hreplaced] at h1
          rw [hreplaced, hidx2]
          rw [show pre.length + 1 = (pre ++ [rec0]).length by simp]
          exact h1
      · have htake : s.fields.take (indexOfName s.fields name) = pre := by
          rw [hidx, hsplit]
          exact List.take_left pre (x :: post)
        have hdrop : s.fields.drop (indexOfName s.fields name + 1) = post := by
          rw [hidx, hsplit,
            show pre ++ x :: post = (pre ++ [x]) ++ post by simp]
          have hl : (pre ++ [x]).length = pre.length + 1 := by simp
          rw [← hl, List.drop_left]
        rw [h2, htake, hdrop]
        simp
      · rw [h3]
        rw [show (pre ++ [rec0]).length = indexOfName s.fields name + 1 by
          simp [hidx]]
        rfl

/-- The C5 statement: `replaceField` fails with `ParserError` when the name
is not materialised or the sizes do not add up; on success the old field is
replaced by a contiguous block — the first new field at the old field's
address, each subsequent one immediately after its predecessor — with a
`field-replaced` event for the first and a `field-insered` event for each
subsequent one. -/
def c5Claim (s : FSState) (name : String) (nfs : List NewField) : Prop :=
  (name ∉ fieldNames s →
    replaceField s name nfs
      = (s, [], some (DErr.parserError "field does not exist"))) ∧
  (∀ f0 rest old, nfs = f0 :: rest → name ∈ fieldNames s →
    findField s.fields name = some old →
    old.size ≠ (nfs.map NewField.size).sum →
    replaceField s name nfs
      = (s, [], some (DErr.parserError "size mismatch"))) ∧
  (∀ s1 evs, replaceField s name nfs = (s1, evs, none) →
    ∃ old block,
      findField s.fields name = some old ∧
      block ≠ [] ∧
      block.length = nfs.length ∧
      block.map FieldRec.size = nfs.map NewField.size ∧
      sumSizes block = old.size ∧
      contiguousFrom old.address block ∧
      s1.fields = s.fields.take (indexOfName s.fields name) ++ block
        ++ s.fields.drop (indexOfName s.fields name + 1) ∧
      ∃ b0 btail, block = b0 :: btail ∧ b0.address = old.address ∧
        evs = FSEvent.fieldReplaced name b0.name
          :: inseredEvents (indexOfName s.fields name + 1) btail)

/-- C5: `replaceField(name, new_fields)` raises `ParserError` when `name`
is not an already-materialised field or when the new fields' total size
differs from the replaced field's size; on success the first new field
takes the replaced field's address, each subsequent new field sits
immediately after its predecessor, and the events are one `field-replaced`
(for the first) followed by `field-insered` for each subsequent field. -/
theorem c5_replaceField (s : FSState) (name : String) (nfs : List NewField) :
    c5Claim s name nfs := by
  refine ⟨?_, ?_, ?_⟩
  · intro hout
    unfold replaceField
    rw [if_neg hout]
  · intro f0 rest old hnfs hmem hfind hne
    subst hnfs
    obtain ⟨old2, hfind2, hmis, _⟩ :=
      replaceField_run s name f0 rest
        (if strEndsWith f0.name "[]" then setUniqueFieldName s.counters f0.name
         else (s.counters, f0.name)) hmem rfl
    rw [hfind] at hfind2
    have hold : old = old2 := Option.some.inj hfind2
    subst hold
    exact hmis hne
  · intro s1 evs hrun
    by_cases hmem : name ∈ fieldNames s
    · cases nfs with
      | nil =>
        unfold replaceField at hrun
        rw [if_pos hmem] at hrun
        cases hrun
      | cons f0 rest =>
        obtain ⟨old, hfind, hmis, hmain⟩ :=
          replaceField_run s name f0 rest
            (if strEndsWith f0.name "[]" then
               setUniqueFieldName s.counters f0.name
             else (s.counters, f0.name)) hmem rfl
        by_cases hsz : old.size = ((f0 :: rest).map NewField.size).sum
        · obtain ⟨hcol, hok⟩ := hmain hsz
          by_cases hc : ((if strEndsWith f0.name "[]" then
              setUniqueFieldName s.counters f0.name
            else (s.counters, f0.name)).2 ≠ name ∧
            (if strEndsWith f0.name "[]" then
              setUniqueFieldName s.counters f0.name
            else (s.counters, f0.name)).2 ∈ fieldNames s)
          · rw [hcol hc] at hrun
            cases hrun
          · obtain ⟨s1', evs', err, recs, heq, hflds, hevs, hcont, hszs,
              hlen, _⟩ := hok hc
            rw [heq] at hrun
            have h1 : s1' = s1 := congrArg Prod.fst hrun
            have h2 : evs' = evs := congrArg Prod.fst (congrArg Prod.snd hrun)
            have h3 : err = none := congrArg Prod.snd (congrArg Prod.snd hrun)
            subst h1
            subst h2
            have hlen2 := hlen h3
            set b0 : FieldRec := ⟨(if strEndsWith f0.name "[]" then
                setUniqueFieldName s.counters f0.name
              else (s.counters, f0.name)).2, old.address, f0.size, f0.isSet,
                f0.val⟩ with hb0
            refine ⟨old, b0 :: recs, hfind, by simp, by simp [hlen2], ?_, ?_,
              ⟨rfl, ?_⟩, hflds, b0, recs, rfl, rfl, hevs⟩
            · show (b0 :: recs).map FieldRec.size
                = (f0 :: rest).map NewField.size
              rw [List.map_cons, List.map_cons, hszs, hlen2, List.take_length]
            · show sumSizes (b0 :: recs) = old.size
              have hss : sumSizes (b0 :: recs)
                  = b0.size + (recs.map FieldRec.size).sum := by
                simp [sumSizes]
              rw [hss, hszs, hlen2, List.take_length, hsz]
              simp [hb0]
            · show contiguousFrom (old.address + f0.size) recs
              exact hcont
        · rw [hmis hsz] at hrun
          cases hrun
    · unfold replaceField at hrun
      rw [if_neg hmem] at hrun
      cases hrun

def c5wState : FSState :=
  ⟨"s", none, 0, [], some 32,
   [⟨"x", 0, 8, false, 0⟩, ⟨"y", 8, 16, false, 0⟩, ⟨"z", 24, 8, false, 0⟩],
   [], 32, none, []⟩

def c5wNew : List NewField := [⟨"p", 8, false, 1⟩, ⟨"q", 8, false, 2⟩]

theorem c5_replaceField_witness : c5Claim c5wState "y" c5wNew :=
  c5_replaceField c5wState "y" c5wNew

/-- The C9 statement: whenever `replaceField` fails after having raised at
least one event, the error is a `ParserError` and the state remains
mutated: the old field has already been replaced by the first new field
and the earlier new fields have already been inserted after it. -/
def c9Claim (s : FSState) (name : String) (nfs : List NewField) : Prop :=
  ∀ s1 evs e, replaceField s name nfs = (s1, evs, some e) → evs ≠ [] →
    (∃ msg, e = DErr.parserError msg) ∧
    ∃ old f0 rest b0 recs, nfs = f0 :: rest ∧
      findField s.fields name = some old ∧
      b0.address = old.address ∧ b0.size = f0.size ∧
      recs.length < rest.length ∧
      contiguousFrom (old.address + f0.size) recs ∧
      s1.fields = s.fields.take (indexOfName s.fields name)
        ++ (b0 :: recs) ++ s.fields.drop (indexOfName s.fields name + 1) ∧
      evs = FSEvent.fieldReplaced name b0.name
        :: inseredEvents (indexOfName s.fields name + 1) recs

/-- C9: `replaceField` is not atomic on error — when a new field after the
first has a name already present, `ParserError` is raised only after the
old field has been replaced by the first new field and every earlier new
field has been inserted, so the field set remains mutated when the error
propagates. -/
theorem c9_replaceField_not_atomic (s : FSState) (name : String)
    (nfs : List NewField) : c9Claim s name nfs := by
  intro s1 evs e hrun hevs
  by_cases hmem : name ∈ fieldNames s
  · cases nfs with
    | nil =>
      unfold replaceField at hrun
      rw [if_pos hmem] at hrun
      cases hrun
      exact absurd rfl hevs
    | cons f0 rest =>
      obtain ⟨old, hfind, hmis, hmain⟩ :=
        replaceField_run s name f0 rest
          (if strEndsWith f0.name "[]" then
             setUniqueFieldName s.counters f0.name
           else (s.counters, f0.name)) hmem rfl
      by_cases hsz : old.size = ((f0 :: rest).map NewField.size).sum
      · obtain ⟨hcol, hok⟩ := hmain hsz
        by_cases hc : ((if strEndsWith f0.name "[]" then
            setUniqueFieldName s.counters f0.name
          else (s.counters, f0.name)).2 ≠ name ∧
          (if strEndsWith f0.name "[]" then
            setUniqueFieldName s.counters f0.name
          else (s.counters, f0.name)).2 ∈ fieldNames s)
        · rw [hcol hc] at hrun
          cases hrun
          exact absurd rfl hevs
        · obtain ⟨s1', evs', err, recs, heq, hflds, hevs', hcont, hszs,
            hlen, herr⟩ := hok hc
          rw [heq] at hrun
          have h1 : s1' = s1 := congrArg Prod.fst hrun
          have h2 : evs' = evs := congrArg Prod.fst (congrArg Prod.snd hrun)
          have h3 : err = some e := congrArg Prod.snd (congrArg Prod.snd hrun)
          subst h1
          subst h2
          obtain ⟨hmsg, hlt⟩ := herr e h3
          exact ⟨hmsg, old, f0, rest,
            ⟨(if strEndsWith f0.name "[]" then
                setUniqueFieldName s.counters f0.name
              else (s.counters, f0.name)).2, old.address, f0.size, f0.isSet,
              f0.val⟩, recs, rfl, hfind, rfl, rfl, hlt, hcont, hflds, hevs'⟩
      · rw [hmis hsz] at hrun
        cases hrun
        exact absurd rfl hevs
  · unfold replaceField at hrun
    rw [if_neg hmem] at hrun
    cases hrun
    exact absurd rfl hevs

def c9wState : FSState :=
  ⟨"s", none, 0, [], some 24,
   [⟨"x", 0, 8, false, 0⟩, ⟨"y", 8, 16, false, 0⟩], [], 24, none, []⟩

def c9wNew : List NewField := [⟨"p", 8, false, 1⟩, ⟨"x", 8, false, 2⟩]

def c9wAfter : FSState :=
  ⟨"s", none, 0, [], some 24,
   [⟨"x", 0, 8, false, 0⟩, ⟨"p", 8, 8, false, 1⟩], [], 24, none, []⟩

theorem c9_replaceField_not_atomic_witness :
    (∃ msg, DErr.parserError "name already used" = DErr.parserError msg) ∧
    ∃ old f0 rest b0 recs, c9wNew = f0 :: rest ∧
      findField c9wState.fields "y" = some old ∧
      b0.address = old.address ∧ b0.size = f0.size ∧
      recs.length < rest.length ∧
      contiguousFrom (old.address + f0.size) recs ∧
      c9wAfter.fields = c9wState.fields.take
          (indexOfName c9wState.fields "y")
        ++ (b0 :: recs)
        ++ c9wState.fields.drop (indexOfName c9wState.fields "y" + 1) ∧
      [FSEvent.fieldReplaced "y" b0.name]
        = FSEvent.fieldReplaced "y" b0.name
          :: inseredEvents (indexOfName c9wState.fields "y" + 1) recs := by
  have h := c9_replaceField_not_atomic c9wState "y" c9wNew c9wAfter
    [FSEvent.fieldReplaced "y" "p"] (DErr.parserError "name already used")
    (by decide) (by decide)
  obtain ⟨hmsg, old, f0, rest, b0, recs, ha, hb, hc, hd, he, hf, hg, hh⟩ := h
  have hb0 : b0.name = "p" := by
    have h2 := congrArg List.head? hh
    simp at h2
    exact h2.symm
  exact ⟨hmsg, old, f0, rest, b0, recs, ha, hb, hc, hd, he, hf, hg, by
    rw [hb0] at hh ⊢
    exact hh⟩

/-- One byte of the input stream (0 when reading past the provided list;
the concrete claims never do). -/
def byteAt (bytes : List Nat) (i : Nat) : Nat := (bytes.getD i 0) % 256

/-- Modelled from the spec: the big-endian bit numbering of
`InputStream.read_bits` — "Bit 0 is the most-significant bit of byte 0 for
big-endian reads" (the stream module is not under `src/`). -/
def bitAtBE (bytes : List Nat) (i : Nat) : Nat :=
  byteAt bytes (i / 8) / 2 ^ (7 - i % 8) % 2

/-- Modelled from the spec: `InputStream.read_bits(offset, nbits, BE)` —
"extracts the high-order nbits from a big-endian packed window, preserving
bit order within bytes". -/
def readBitsBE (bytes : List Nat) (off : Nat) : Nat → Nat
  | 0 => 0
  | Nat.succ n => readBitsBE bytes off n * 2 + bitAtBE bytes (off + n)

/-- Modelled from the spec: `InputStream.read_bytes(offset, nbytes)` at a
byte-aligned offset. -/
def readBytes (bytes : List Nat) (off n : Nat) : List Nat :=
  (List.range n).map (fun i => byteAt bytes (off + i))

/-- Assign contiguous addresses to the yielded (name, size) children, as
the driver does. -/
def assignAddrs : Nat → List (String × Nat) → List (String × Nat × Nat)
  | _, [] => []
  | a, c :: rest => (c.1, a, c.2) :: assignAddrs (a + c.2) rest

/-- `Float.createFields` of `floatFactory`: `negative` (1 bit), `exponent`,
then — for 64-bit-or-wider mantissas — an explicit `one` bit and a mantissa
one bit narrower, else the mantissa itself. -/
def floatFieldSpecs (mantissaBits exponentBits : Nat) : List (String × Nat) :=
  ("negative", 1) :: ("exponent", exponentBits) ::
    (if 64 ≤ mantissaBits then [("one", 1), ("mantissa", mantissaBits - 1)]
     else [("mantissa", mantissaBits)])

/-- The float composite's children with their addresses. -/
def floatChildren (mantissaBits exponentBits : Nat) : List (String × Nat × Nat) :=
  assignAddrs 0 (floatFieldSpecs mantissaBits exponentBits)

/-- `floatFactory`'s `size = 1 + mantissa_bits + exponent_bits`. -/
def floatStaticSize (mantissaBits exponentBits : Nat) : Nat :=
  1 + mantissaBits + exponentBits

/-- Find a child's (address, size) by name. -/
def findChild : List (String × Nat × Nat) → String → Option (Nat × Nat)
  | [], _ => none
  | c :: rest, nm => if c.1 = nm then some c.2 else findChild rest nm

/-- `Bits.createValue` for a float child: the raw unsigned value read from
the stream at the child's (absolute) address, big-endian. -/
def childRaw (bytes : List Nat) (cs : List (String × Nat × Nat))
    (nm : String) : Nat :=
  match findChild cs nm with
  | some p => readBitsBE bytes p.1 p.2
  | none => 0

/-- `FloatExponent.bias = 2 ** (size - 1) - 1`. -/
def floatExponentBias (sz : Nat) : Nat := 2 ^ (sz - 1) - 1

/-- The children of `Float80 = floatFactory(..., None, 64, 15, ...)`. -/
def float80Children : List (String × Nat × Nat) := floatChildren 64 15

/-- `Float.createValue` in its no-struct-format branch (`Float80`):
`self["mantissa"].value * 2 ** self["exponent"].value`, negated when
`self["negative"].value` is truthy, where `FloatMantissa.createValue` is
`1 + value / 2 ** size` and `FloatExponent.createValue` is `value - bias`.
Python float arithmetic is idealised as exact rational arithmetic. -/
def float80CreateValue (bytes : List Nat) : ℚ :=
  match findChild float80Children "mantissa",
      findChild float80Children "exponent",
      findChild float80Children "negative" with
  | some m, some e, some n =>
    let mraw := readBitsBE bytes m.1 m.2
    let eraw := readBitsBE bytes e.1 e.2
    let mantissaVal : ℚ := 1 + (mraw : ℚ) / 2 ^ m.2
    let expVal : Int := (eraw : Int) - (floatExponentBias e.2 : Int)
    let value : ℚ := mantissaVal * (2 : ℚ) ^ expVal
    if readBitsBE bytes n.1 n.2 ≠ 0 then -value else value
  | _, _, _ => 0

/-- C10: a `Float80` materialises exactly four children in order —
`negative` (1 bit at 0), `exponent` (15 bits at 1), `one` (1 bit at 16),
`mantissa` (63 bits at 17) — and its value is
`(1 + m / 2⁶³) * 2^(e - 16383)`, negated when the sign bit is 1, where `m`
and `e` are the raw mantissa and exponent; the explicit integer bit (the
`one` child, bit 16) is never consulted. -/
theorem c10_float80 :
    float80Children = [("negative", 0, 1), ("exponent", 1, 15),
      ("one", 16, 1), ("mantissa", 17, 63)] ∧
    floatStaticSize 64 15 = 80 ∧
    ∀ bytes : List Nat,
      float80CreateValue bytes =
        (if readBitsBE bytes 0 1 = 1 then
          -((1 + (readBitsBE bytes 17 63 : ℚ) / 2 ^ 63)
            * (2 : ℚ) ^ ((readBitsBE bytes 1 15 : Int) - 16383))
        else
          (1 + (readBitsBE bytes 17 63 : ℚ) / 2 ^ 63)
            * (2 : ℚ) ^ ((readBitsBE bytes 1 15 : Int) - 16383)) := by
  refine ⟨by decide, by decide, ?_⟩
  intro bytes
  have hmatch : float80CreateValue bytes
      = (if readBitsBE bytes 0 1 ≠ 0 then
          -((1 + (readBitsBE bytes 17 63 : ℚ) / 2 ^ 63)
            * (2 : ℚ) ^ ((readBitsBE bytes 1 15 : Int)
              - (floatExponentBias 15 : Int)))
        else
          (1 + (readBitsBE bytes 17 63 : ℚ) / 2 ^ 63)
            * (2 : ℚ) ^ ((readBitsBE bytes 1 15 : Int)
              - (floatExponentBias 15 : Int))) := rfl
  have hbias : ((floatExponentBias 15 : Nat) : Int) = 16383 := by decide
  rw [hmatch, hbias]
  have h01 : readBitsBE bytes 0 1 = 0 ∨ readBitsBE bytes 0 1 = 1 := by
    have hb : readBitsBE bytes 0 1 = bitAtBE bytes 0 := by
      simp [readBitsBE]
    have hlt : bitAtBE bytes 0 < 2 := Nat.mod_lt _ (by norm_num)
    omega
  rcases h01 with h | h
  · rw [if_neg (by rw [h]; norm_num), if_neg (by rw [h]; norm_num)]
  · rw [if_pos (by rw [h]; norm_num), if_pos h]

/-- The children of `Float64 = floatFactory(..., "d", 52, 11, ...)`. -/
def float64Children : List (String × Nat × Nat) := floatChildren 52 11

/-- Modelled from the spec: `struct.unpack(">d", raw)` decodes IEEE-754
binary64 (spec section 4.1: "Float decoding uses IEEE-754 binary32 and
binary64"; the module-level asserts of `float.py` pin this exact value for
the C7 bytes).  Finite values are exact rationals; infinities and NaNs
(exponent 2047) are `none`. -/
def float64UnpackBE (bytes : List Nat) : Option ℚ :=
  let sign := readBitsBE bytes 0 1
  let e := readBitsBE bytes 1 11
  let m := readBitsBE bytes 12 52
  if e = 2047 then none
  else
    let mag : ℚ :=
      if e = 0 then (m : ℚ) / 2 ^ 52 * ((2 : ℚ) ^ (-(1022 : Int)))
      else (1 + (m : ℚ) / 2 ^ 52) * (2 : ℚ) ^ ((e : Int) - 1023)
    some (if sign = 1 then -mag else mag)

/-- `Float.createValue` in its struct-format branch (`Float64`, big-endian
parent): unpack the `size/8` bytes read at the field's address. -/
def float64CreateValue (bytes : List Nat) : Option ℚ :=
  float64UnpackBE (readBytes bytes 0 8)

def c7bytes : List Nat := [0xc0, 0, 0, 0, 0, 0, 0, 0]

/-- C7: parsing the bytes `c0 00 00 00 00 00 00 00` as a big-endian
`Float64` yields a 64-bit field of value `-2.0` whose `negative` child is
1, whose `exponent` child has raw (biased) value 1024, and whose
`mantissa` child has raw value 0. -/
theorem c7_float64 :
    floatStaticSize 52 11 = 64 ∧
    float64Children
      = [("negative", 0, 1), ("exponent", 1, 11), ("mantissa", 12, 52)] ∧
    float64CreateValue c7bytes = some (-2) ∧
    childRaw c7bytes float64Children "negative" = 1 ∧
    childRaw c7bytes float64Children "exponent" = 1024 ∧
    childRaw c7bytes float64Children "mantissa" = 0 := by
  refine ⟨by decide, by decide, ?_, by decide, by decide, by decide⟩
  have hs : readBitsBE (readBytes c7bytes 0 8) 0 1 = 1 := by decide
  have he : readBitsBE (readBytes c7bytes 0 8) 1 11 = 1024 := by decide
  have hm : readBitsBE (readBytes c7bytes 0 8) 12 52 = 0 := by decide
  show float64UnpackBE (readBytes c7bytes 0 8) = some (-2)
  unfold float64UnpackBE
  rw [hs, he, hm]
  norm_num

/-- `JpegChunk.type_name`: the rename table applied in
`JpegChunk.__init__` after reading the `type` byte. -/
def jpegTypeName (tag : Nat) : Option String :=
  if tag = 0xC0 then some "sof"
  else if tag = 0xC4 then some "dht[]"
  else if tag = 0xD8 then some "soi"
  else if tag = 0xD9 then some "eoi"
  else if tag = 0xDA then some "sos"
  else if tag = 0xDB then some "dqt[]"
  else if tag = 0xDC then some "dnl[]"
  else if tag = 0xDD then some "dri[]"
  else if tag = 0xE0 then some "app0"
  else if tag = 0xED then some "psd"
  else if tag = 0xFE then some "comment[]"
  else none

/-- `JpegChunk.__init__`: the chunk is constructed as `chunk[]` but renames
itself after its `type` byte; an `0xE1` chunk sniffs the six bytes at
chunk start + 32 bits for `"Exif\0\0"`. -/
def jpegChunkName (bytes : List Nat) (pos tag : Nat) : String :=
  match jpegTypeName tag with
  | some nm => nm
  | none =>
    if tag = 0xE1 ∧ readBytes bytes (pos + 4) 6
        = [0x45, 0x78, 0x69, 0x66, 0x00, 0x00] then "exif"
    else "chunk[]"

/-- Byte length of a chunk per `JpegChunk.createFields`: `header` and
`type` only for SOI/EOI, else also the 2-byte big-endian `size` field and
`size - 2` content bytes when that is positive. -/
def jpegChunkLen (bytes : List Nat) (pos : Nat) : Nat :=
  let tag := byteAt bytes (pos + 1)
  if tag = 0xD8 ∨ tag = 0xD9 then 2
  else 4 + (byteAt bytes (pos + 2) * 256 + byteAt bytes (pos + 3) - 2)

/-- The trailing `RawBytes(self, "data", size)` of `JpegFile.createFields`,
yielded when whole bytes remain after the chunk walk. -/
def jpegTrailing (streamBits cur : Nat) : List FieldRec :=
  let rem := (streamBits - cur) / 8
  if rem = 0 then [] else [⟨"data", cur, rem * 8, false, 0⟩]

/-- `JpegFile.createFields` composed with the `"[]"` renaming `_addField`
applies to the yielded chunks: loop `while not self.eof`, yield a chunk
(header byte must be `0xFF`, name from its type byte, size from its header
fields), break after an SOS chunk, then yield the trailing `data`.  The
fuel only bounds the recursion; the theorems use enough of it. -/
def jpegFields (bytes : List Nat) (streamBits : Nat) :
    Nat → Nat → List (String × Nat) → List FieldRec × Option DErr
  | 0, _, _ => ([], some DErr.assertFail)
  | Nat.succ fuel, cur, cnts =>
    if streamBits < cur + 1 then (jpegTrailing streamBits cur, none)
    else
      let pos := cur / 8
      if byteAt bytes pos ≠ 0xFF then
        ([], some (DErr.parserError "invalid chunk header"))
      else
        let tag := byteAt bytes (pos + 1)
        let nm0 := jpegChunkName bytes pos tag
        let p := if strEndsWith nm0 "[]" then setUniqueFieldName cnts nm0
                 else (cnts, nm0)
        let clen := jpegChunkLen bytes pos
        let rec1 : FieldRec := ⟨p.2, cur, clen * 8, true, tag⟩
        if tag = 0xDA then
          (rec1 :: jpegTrailing streamBits (cur + clen * 8), none)
        else
          let t := jpegFields bytes streamBits fuel (cur + clen * 8) p.1
          (rec1 :: t.1, t.2)

/-- `JpegChunkApp0.createFields`'s first field: `String(self, "jfif", 5)`,
read at the chunk's content start (chunk byte position + 4). -/
def jpegApp0Jfif (bytes : List Nat) (chunkBytePos : Nat) : List Nat :=
  readBytes bytes (chunkBytePos + 4) 5

/-- The C8 stream: `FF D8`, an APP0/JFIF chunk, then a minimal DQT chunk
(8-bit table, 64 coefficients) ending exactly at the stream end. -/
def c8bytes : List Nat :=
  [0xFF, 0xD8,
   0xFF, 0xE0, 0x00, 0x10,
   0x4A, 0x46, 0x49, 0x46, 0x00, 0x01, 0x01, 0x00,
   0x00, 0x01, 0x00, 0x01, 0x00, 0x00,
   0xFF, 0xDB, 0x00, 0x43, 0x00] ++ List.replicate 64 0x10

/-- C8, counterexample to the claim as stated: on the given stream the
JPEG parser materialises three chunks, but they are **not** addressable as
`chunk[0]`, `chunk[1]`, `chunk[2]` — `JpegChunk.__init__` renames each
chunk after its type byte, so the children are named `soi`, `app0` and
`dqt[0]`, and no field named `chunk[0]` exists. -/
theorem c8_counterexample :
    (jpegFields c8bytes 712 5 0 []).1.map FieldRec.name
      = ["soi", "app0", "dqt[0]"] ∧
    "chunk[0]" ∉ (jpegFields c8bytes 712 5 0 []).1.map FieldRec.name := by
  decide

/-- C8, amended: on a stream beginning
`FF D8 FF E0 00 10 4A 46 49 46 00 01 01 00 00 01 00 01 00 00 FF DB …` the
JPEG parser materialises three chunks — named `soi`, `app0` and `dqt[0]`
after their type bytes — whose `type` values are 0xD8 (SOI), 0xE0 (APP0)
and 0xDB (DQT), and the second chunk's nested content has a `jfif` field
equal to `"JFIF\0"`. -/
theorem c8_jpeg_chunks :
    jpegFields c8bytes 712 5 0 []
      = ([⟨"soi", 0, 16, true, 0xD8⟩, ⟨"app0", 16, 144, true, 0xE0⟩,
          ⟨"dqt[0]", 160, 552, true, 0xDB⟩], none) ∧
    jpegApp0Jfif c8bytes 2 = [0x4A, 0x46, 0x49, 0x46, 0x00] := by
  decide

/-- The effective ancestor bound of `_checkSize` relative to the set's own
start, for a set whose own size is unknown: the nearest ancestor with a
known size gives `some` of that size minus the accumulated addresses. -/
def ancRel (s : FSState) : Option Int :=
  csWalk ((s.selfAddr, none) :: s.ancestors) 0

theorem csWalk_shift (chain : List (Nat × Option Nat)) :
    ∀ x : Int, csWalk chain x = (csWalk chain 0).map (fun b => b - x) := by
  induction chain with
  | nil => intro x; rfl
  | cons hd rest ih =>
    intro x
    match hd with
    | (a, some n) =>
      show some ((n : Int) - x) = (some ((n : Int) - 0)).map (fun b => b - x)
      simp
    | (a, none) =>
      show (if rest.isEmpty then none else csWalk rest (x + (a : Int)))
          = (if rest.isEmpty then none
             else csWalk rest (0 + (a : Int))).map (fun b => b - x)
      by_cases hr : rest.isEmpty
      · rw [if_pos hr, if_pos hr]
        rfl
      · rw [if_neg hr, if_neg hr]
        rw [ih (x + (a : Int)), ih (0 + (a : Int))]
        cases csWalk rest 0 with
        | none => rfl
        | some b =>
          show some (b - (x + a)) = some (b - (0 + a) - x)
          congr 1
          ring

theorem checkSizeLoose_none (s : FSState) (h : s.size? = none) (x : Nat) :
    checkSizeLoose s x = (ancRel s).map (fun b => b - (x : Int)) := by
  unfold checkSizeLoose ancRel
  rw [h]
  show csWalk ((s.selfAddr, none) :: s.ancestors) (x : Int) = _
  exact csWalk_shift ((s.selfAddr, none) :: s.ancestors) (x : Int)

theorem checkSizeLoose_some (s : FSState) (n : Nat) (h : s.size? = some n)
    (x : Nat) : checkSizeLoose s x = some ((n : Int) - (x : Int)) := by
  unfold checkSizeLoose
  rw [h]
  rfl

/-- Apply `size? := some c` to the state carried by an `AddRes`. -/
def resSetSize (c : Nat) : AddRes → AddRes
  | AddRes.ok s => AddRes.ok { s with size? := some c }
  | AddRes.okStop s => AddRes.okStop { s with size? := some c }
  | AddRes.dropStop s => AddRes.dropStop { s with size? := some c }
  | AddRes.fail e s => AddRes.fail e { s with size? := some c }

theorem appendField_setSize (a : FSState) (c : Nat) (nm : String)
    (addr fsize : Nat) (isSet : Bool) (val : Nat) (askStop : Bool) :
    appendField { a with size? := some c } nm addr fsize isSet val askStop
      = resSetSize c (appendField a nm addr fsize isSet val askStop) := by
  by_cases h1 : nm ∈ a.fields.map FieldRec.name
  · have h1A : nm ∈ fieldNames { a with
        currentSize := a.currentSize + fsize } := h1
    have h1B : nm ∈ fieldNames { a with
        size? := some c, currentSize := a.currentSize + fsize } := h1
    unfold appendField
    dsimp only
    rw [if_pos h1A, if_pos h1B]
    by_cases h2 : (setUniqueFieldName a.counters (nm ++ "[]")).2
        ∈ a.fields.map FieldRec.name
    · have h2A : (setUniqueFieldName a.counters (nm ++ "[]")).2
          ∈ fieldNames { a with
              currentSize := a.currentSize + fsize,
              counters := (setUniqueFieldName a.counters (nm ++ "[]")).1 } := h2
      have h2B : (setUniqueFieldName a.counters (nm ++ "[]")).2
          ∈ fieldNames { a with
              size? := some c,
              currentSize := a.currentSize + fsize,
              counters := (setUniqueFieldName a.counters (nm ++ "[]")).1 } := h2
      rw [if_pos h2A, if_pos h2B]
      rfl
    · have h2A : (setUniqueFieldName a.counters (nm ++ "[]")).2
          ∉ fieldNames { a with
              currentSize := a.currentSize + fsize,
              counters := (setUniqueFieldName a.counters (nm ++ "[]")).1 } := h2
      have h2B : (setUniqueFieldName a.counters (nm ++ "[]")).2
          ∉ fieldNames { a with
              size? := some c,
              currentSize := a.currentSize + fsize,
              counters := (setUniqueFieldName a.counters (nm ++ "[]")).1 } := h2
      rw [if_neg h2A, if_neg h2B]
      cases askStop with
      | true => rw [if_pos rfl, if_pos rfl]; rfl
      | false => rw [if_neg Bool.false_ne_true, if_neg Bool.false_ne_true]; rfl
  · have h1A : nm ∉ fieldNames { a with
        currentSize := a.currentSize + fsize } := h1
    have h1B : nm ∉ fieldNames { a with
        size? := some c, currentSize := a.currentSize + fsize } := h1
    unfold appendField
    dsimp only
    rw [if_neg h1A, if_neg h1B]
    cases askStop with
    | true => rw [if_pos rfl, if_pos rfl]; rfl
    | false => rw [if_neg Bool.false_ne_true, if_neg Bool.false_ne_true]; rfl

theorem addFieldSized_eq_append (autofix : Bool) (a : FSState) (nm : String)
    (addr fsize : Nat) (isSet : Bool) (val : Nat) (askStop : Bool)
    (htr : (negOpt (checkSizeLoose a (addr + fsize))
      || (isSet && fsize == 0)) = false) :
    addFieldSized autofix a nm addr fsize isSet val askStop
      = appendField a nm addr fsize isSet val askStop := by
  unfold addFieldSized
  dsimp only
  rw [if_neg (by rw [htr]; exact Bool.false_ne_true)]

theorem addFieldSized_eq_noaf (a : FSState) (nm : String)
    (addr fsize : Nat) (isSet : Bool) (val : Nat) (askStop : Bool)
    (htr : (negOpt (checkSizeLoose a (addr + fsize))
      || (isSet && fsize == 0)) = true) :
    addFieldSized false a nm addr fsize isSet val askStop
      = AddRes.fail (DErr.parserError "too large") a := by
  unfold addFieldSized
  dsimp only
  rw [if_pos htr, if_neg Bool.false_ne_true]

theorem addFieldSized_eq_tyerr (a : FSState) (nm : String)
    (addr fsize : Nat) (isSet : Bool) (val : Nat) (askStop : Bool)
    (htr : (negOpt (checkSizeLoose a (addr + fsize))
      || (isSet && fsize == 0)) = true)
    (hd : checkSizeLoose a (addr + fsize) = none) :
    addFieldSized true a nm addr fsize isSet val askStop
      = AddRes.fail DErr.typeError a := by
  unfold addFieldSized
  dsimp only
  rw [if_pos htr, if_pos rfl, hd]

theorem addFieldSized_eq_trunc (a : FSState) (nm : String)
    (addr fsize : Nat) (isSet : Bool) (val : Nat) (askStop : Bool) (d : Int)
    (htr : (negOpt (checkSizeLoose a (addr + fsize))
      || (isSet && fsize == 0)) = true)
    (hd : checkSizeLoose a (addr + fsize) = some d)
    (hpos : 0 < (fsize : Int) + d)
    (hcomp : (isSet && decide (0 < fsize)) = true) :
    addFieldSized true a nm addr fsize isSet val askStop
      = appendField a nm addr ((fsize : Int) + d).toNat isSet val askStop := by
  unfold addFieldSized
  dsimp only
  rw [if_pos htr, if_pos rfl, hd]
  dsimp only
  rw [if_pos hpos, if_pos hcomp]

theorem addFieldSized_eq_dropSet (a : FSState) (nm : String)
    (addr fsize : Nat) (isSet : Bool) (val : Nat) (askStop : Bool) (d : Int)
    (htr : (negOpt (checkSizeLoose a (addr + fsize))
      || (isSet && fsize == 0)) = true)
    (hd : checkSizeLoose a (addr + fsize) = some d)
    (hpos : 0 < (fsize : Int) + d)
    (hcomp : (isSet && decide (0 < fsize)) = false)
    (hsz : a.size? = none) :
    addFieldSized true a nm addr fsize isSet val askStop
      = AddRes.dropStop { a with
          size? := some (a.currentSize + ((fsize : Int) + d).toNat) } := by
  unfold addFieldSized
  dsimp only
  rw [if_pos htr, if_pos rfl, hd]
  dsimp only
  rw [if_pos hpos, if_neg (by rw [hcomp]; exact Bool.false_ne_true),
    if_pos hsz]

theorem addFieldSized_eq_dropKeep (a : FSState) (nm : String)
    (addr fsize : Nat) (isSet : Bool) (val : Nat) (askStop : Bool) (d : Int)
    (htr : (negOpt (checkSizeLoose a (addr + fsize))
      || (isSet && fsize == 0)) = true)
    (hd : checkSizeLoose a (addr + fsize) = some d)
    (hpos : 0 < (fsize : Int) + d)
    (hcomp : (isSet && decide (0 < fsize)) = false)
    (hsz : a.size? ≠ none) :
    addFieldSized true a nm addr fsize isSet val askStop
      = AddRes.dropStop a := by
  unfold addFieldSized
  dsimp only
  rw [if_pos htr, if_pos rfl, hd]
  dsimp only
  rw [if_pos hpos, if_neg (by rw [hcomp]; exact Bool.false_ne_true),
    if_neg hsz]

theorem addFieldSized_eq_dropNeg (a : FSState) (nm : String)
    (addr fsize : Nat) (isSet : Bool) (val : Nat) (askStop : Bool) (d : Int)
    (htr : (negOpt (checkSizeLoose a (addr + fsize))
      || (isSet && fsize == 0)) = true)
    (hd : checkSizeLoose a (addr + fsize) = some d)
    (hneg : ¬ 0 < (fsize : Int) + d) :
    addFieldSized true a nm addr fsize isSet val askStop
      = AddRes.dropStop a := by
  unfold addFieldSized
  dsimp only
  rw [if_pos htr, if_pos rfl, hd]
  dsimp only
  rw [if_neg hneg]

/-- State bookkeeping of `appendField`: an appended outcome bumps
`current_size` by the given size and touches only fields and counters; the
only failure is the duplicate-name `UniqKeyError`. -/
theorem appendField_state (a : FSState) (nm : String) (addr fsize : Nat)
    (isSet : Bool) (val : Nat) (askStop : Bool) :
    (match appendField a nm addr fsize isSet val askStop with
     | AddRes.ok a' => a'.size? = a.size? ∧ a'.gen = a.gen ∧
        a'.selfAddr = a.selfAddr ∧ a'.ancestors = a.ancestors ∧
        a'.producer = a.producer ∧ a'.currentSize = a.currentSize + fsize
     | AddRes.okStop a' => a'.size? = a.size? ∧ a'.gen = a.gen ∧
        a'.selfAddr = a.selfAddr ∧ a'.ancestors = a.ancestors ∧
        a'.producer = a.producer ∧ a'.currentSize = a.currentSize + fsize
     | AddRes.dropStop _ => False
     | AddRes.fail e a' => e = DErr.uniqKeyError ∧ a'.size? = a.size?) := by
  unfold appendField
  dsimp only
  by_cases h1 : nm ∈ fieldNames { a with currentSize := a.currentSize + fsize }
  · rw [if_pos h1]
    by_cases h2 : (setUniqueFieldName a.counters (nm ++ "[]")).2
        ∈ fieldNames { a with
            currentSize := a.currentSize + fsize,
            counters := (setUniqueFieldName a.counters (nm ++ "[]")).1 }
    · rw [if_pos h2]
      exact ⟨rfl, rfl⟩
    · rw [if_neg h2]
      cases askStop with
      | true =>
        rw [if_pos rfl]
        exact ⟨rfl, rfl, rfl, rfl, rfl, rfl⟩
      | false =>
        rw [if_neg Bool.false_ne_true]
        exact ⟨rfl, rfl, rfl, rfl, rfl, rfl⟩
  · rw [if_neg h1]
    cases askStop with
    | true =>
      rw [if_pos rfl]
      exact ⟨rfl, rfl, rfl, rfl, rfl, rfl⟩
    | false =>
      rw [if_neg Bool.false_ne_true]
      exact ⟨rfl, rfl, rfl, rfl, rfl, rfl⟩

theorem appendField_ok_state (a : FSState) (nm : String) (addr F : Nat)
    (isSet : Bool) (val : Nat) (askStop : Bool) (a' : FSState)
    (h : appendField a nm addr F isSet val askStop = AddRes.ok a'
      ∨ appendField a nm addr F isSet val askStop = AddRes.okStop a') :
    a'.size? = a.size? ∧ a'.gen = a.gen ∧ a'.selfAddr = a.selfAddr ∧
    a'.ancestors = a.ancestors ∧ a'.producer = a.producer ∧
    a'.currentSize = a.currentSize + F := by
  have hst := appendField_state a nm addr F isSet val askStop
  rcases h with h | h <;> rw [h] at hst <;> exact hst

theorem appendField_drop_state (a : FSState) (nm : String) (addr F : Nat)
    (isSet : Bool) (val : Nat) (askStop : Bool) (a' : FSState)
    (h : appendField a nm addr F isSet val askStop = AddRes.dropStop a') :
    False := by
  have hst := appendField_state a nm addr F isSet val askStop
  rw [h] at hst
  exact hst

theorem appendField_fail_state (a : FSState) (nm : String) (addr F : Nat)
    (isSet : Bool) (val : Nat) (askStop : Bool) (e : DErr) (a' : FSState)
    (h : appendField a nm addr F isSet val askStop = AddRes.fail e a') :
    e = DErr.uniqKeyError ∧ a'.size? = a.size? := by
  have hst := appendField_state a nm addr F isSet val askStop
  rw [h] at hst
  exact hst

/-- The simulation core for idempotent restart: running `_addField`'s
size-checked tail from a state with unknown `size` versus the same state
with `size` pinned to a sufficiently large bound `c` (at least the reached
`current_size`, at most every known ancestor bound) produces the same
outcome up to the pinned size; the dropped-field outcomes record exactly
where `c` must sit for the rerun to agree. -/
theorem addFieldSized_sim (autofix : Bool) (a : FSState) (nm : String)
    (fsize : Nat) (isSet : Bool) (val : Nat) (askStop : Bool) (c : Nat)
    (hnone : a.size? = none)
    (hinv : ∀ B, ancRel a = some B → (a.currentSize : Int) ≤ B) :
    (∀ a', (addFieldSized autofix a nm a.currentSize fsize isSet val askStop
          = AddRes.ok a' ∨
        addFieldSized autofix a nm a.currentSize fsize isSet val askStop
          = AddRes.okStop a') →
      a'.size? = none ∧ a'.gen = a.gen ∧ a'.selfAddr = a.selfAddr ∧
      a'.ancestors = a.ancestors ∧ a'.producer = a.producer ∧
      a.currentSize ≤ a'.currentSize ∧
      (∀ B, ancRel a = some B → (a'.currentSize : Int) ≤ B) ∧
      (a'.currentSize ≤ c → (∀ B, ancRel a = some B → (c : Int) ≤ B) →
        addFieldSized autofix { a with size? := some c } nm a.currentSize
            fsize isSet val askStop
          = resSetSize c (addFieldSized autofix a nm a.currentSize fsize
              isSet val askStop))) ∧
    (∀ a', addFieldSized autofix a nm a.currentSize fsize isSet val askStop
        = AddRes.dropStop a' →
      (a'.size? = none → a' = a ∧ (c = a.currentSize →
        addFieldSized autofix { a with size? := some c } nm a.currentSize
            fsize isSet val askStop
          = AddRes.dropStop { a with size? := some c })) ∧
      (∀ c0, a'.size? = some c0 →
        a' = { a with size? := some c0 } ∧ a.currentSize ≤ c0 ∧
        ancRel a = some ((c0 : Nat) : Int) ∧
        (c = c0 →
          addFieldSized autofix { a with size? := some c } nm a.currentSize
              fsize isSet val askStop
            = AddRes.dropStop a'))) ∧
    (∀ e a', addFieldSized autofix a nm a.currentSize fsize isSet val askStop
        = AddRes.fail e a' → a'.size? = none) := by
  have hx := checkSizeLoose_none a hnone (a.currentSize + fsize)
  have hxB : checkSizeLoose { a with size? := some c } (a.currentSize + fsize)
      = some ((c : Int) - ((a.currentSize + fsize : Nat) : Int)) :=
    checkSizeLoose_some { a with size? := some c } c rfl (a.currentSize + fsize)
  cases hanc : ancRel a with
  | none =>
    have hx0 : checkSizeLoose a (a.currentSize + fsize) = none := by
      rw [hx, hanc]
      rfl
    cases hcomp : (isSet && fsize == 0) with
    | true =>
      have htr : (negOpt (checkSizeLoose a (a.currentSize + fsize))
          || (isSet && fsize == 0)) = true := by
        rw [hx0, hcomp]
        rfl
      cases autofix with
      | false =>
        have hA := addFieldSized_eq_noaf a nm a.currentSize fsize isSet val
          askStop htr
        refine ⟨?_, ?_, ?_⟩
        · intro a' h
          rcases h with h | h <;> rw [hA] at h <;> exact AddRes.noConfusion h
        · intro a' h
          rw [hA] at h
          exact AddRes.noConfusion h
        · intro e a' h
          rw [hA] at h
          injection h with he hs
          rw [← hs]
          exact hnone
      | true =>
        have hA := addFieldSized_eq_tyerr a nm a.currentSize fsize isSet val
          askStop htr hx0
        refine ⟨?_, ?_, ?_⟩
        · intro a' h
          rcases h with h | h <;> rw [hA] at h <;> exact AddRes.noConfusion h
        · intro a' h
          rw [hA] at h
          exact AddRes.noConfusion h
        · intro e a' h
          rw [hA] at h
          injection h with he hs
          rw [← hs]
          exact hnone
    | false =>
      have htrF : (negOpt (checkSizeLoose a (a.currentSize + fsize))
          || (isSet && fsize == 0)) = false := by
        rw [hx0, hcomp]
        rfl
      have hA := addFieldSized_eq_append autofix a nm a.currentSize fsize isSet
        val askStop htrF
      refine ⟨?_, ?_, ?_⟩
      · intro a' h
        rw [hA] at h
        obtain ⟨hsz, hgen, hsa, hanc2, hprod, hcur⟩ :=
          appendField_ok_state _ _ _ _ _ _ _ _ h
        refine ⟨hsz.trans hnone, hgen, hsa, hanc2, hprod,
          by rw [hcur]; exact Nat.le_add_right _ _, ?_, ?_⟩
        · intro B hB
          exact Option.noConfusion hB
        · intro hle hcb
          have htrB : (negOpt (checkSizeLoose { a with size? := some c }
              (a.currentSize + fsize)) || (isSet && fsize == 0)) = false := by
            rw [hxB, hcomp]
            simp only [negOpt, Bool.or_false, decide_eq_false_iff_not]
            omega
          have hAB := addFieldSized_eq_append autofix { a with size? := some c }
            nm a.currentSize fsize isSet val askStop htrB
          rw [hA, hAB, appendField_setSize]
      · intro a' h
        rw [hA] at h
        exact (appendField_drop_state _ _ _ _ _ _ _ _ h).elim
      · intro e a' h
        rw [hA] at h
        exact (appendField_fail_state _ _ _ _ _ _ _ _ _ h).2.trans hnone
  | some B0 =>
    have hd : checkSizeLoose a (a.currentSize + fsize)
        = some (B0 - ((a.currentSize + fsize : Nat) : Int)) := by
      rw [hx, hanc]
      rfl
    have hinvB : (a.currentSize : Int) ≤ B0 := hinv B0 hanc
    cases htr : (negOpt (checkSizeLoose a (a.currentSize + fsize))
        || (isSet && fsize == 0)) with
    | false =>
      have hfacts : ¬ (B0 - ((a.currentSize + fsize : Nat) : Int) < 0)
          ∧ (isSet && fsize == 0) = false := by
        rw [hd] at htr
        simpa only [negOpt, Bool.or_eq_false_iff,
          decide_eq_false_iff_not] using htr
      obtain ⟨hf1, hf2⟩ := hfacts
      have hA := addFieldSized_eq_append autofix a nm a.currentSize fsize isSet
        val askStop htr
      refine ⟨?_, ?_, ?_⟩
      · intro a' h
        rw [hA] at h
        obtain ⟨hsz, hgen, hsa, hanc2, hprod, hcur⟩ :=
          appendField_ok_state _ _ _ _ _ _ _ _ h
        refine ⟨hsz.trans hnone, hgen, hsa, hanc2, hprod,
          by rw [hcur]; exact Nat.le_add_right _ _, ?_, ?_⟩
        · intro B hB
          injection hB with hB
          rw [← hB, hcur]
          push_cast
          omega
        · intro hle hcb
          have htrB : (negOpt (checkSizeLoose { a with size? := some c }
              (a.currentSize + fsize)) || (isSet && fsize == 0)) = false := by
            rw [hxB, hf2]
            simp only [negOpt, Bool.or_false, decide_eq_false_iff_not]
            omega
          have hAB := addFieldSized_eq_append autofix { a with size? := some c }
            nm a.currentSize fsize isSet val askStop htrB
          rw [hA, hAB, appendField_setSize]
      · intro a' h
        rw [hA] at h
        exact (appendField_drop_state _ _ _ _ _ _ _ _ h).elim
      · intro e a' h
        rw [hA] at h
        exact (appendField_fail_state _ _ _ _ _ _ _ _ _ h).2.trans hnone
    | true =>
      cases autofix with
      | false =>
        have hA := addFieldSized_eq_noaf a nm a.currentSize fsize isSet val
          askStop htr
        refine ⟨?_, ?_, ?_⟩
        · intro a' h
          rcases h with h | h <;> rw [hA] at h <;> exact AddRes.noConfusion h
        · intro a' h
          rw [hA] at h
          exact AddRes.noConfusion h
        · intro e a' h
          rw [hA] at h
          injection h with he hs
          rw [← hs]
          exact hnone
      | true =>
        have hor : B0 - ((a.currentSize + fsize : Nat) : Int) < 0
            ∨ (isSet && fsize == 0) = true := by
          rw [hd] at htr
          simpa only [negOpt, Bool.or_eq_true, decide_eq_true_eq] using htr
        by_cases hpos : 0 < (fsize : Int)
            + (B0 - ((a.currentSize + fsize : Nat) : Int))
        · cases hcomp2 : (isSet && decide (0 < fsize)) with
          | true =>
            have hA := addFieldSized_eq_trunc a nm a.currentSize fsize isSet
              val askStop _ htr hd hpos hcomp2
            have hfs : 0 < fsize := by
              have h1 := (Bool.and_eq_true _ _).mp hcomp2
              exact of_decide_eq_true h1.2
            have hcompF : (isSet && fsize == 0) = false := by
              rcases Bool.eq_false_or_eq_true (isSet && fsize == 0) with h | h
              · have h1 := (Bool.and_eq_true _ _).mp h
                have hz : fsize = 0 := by simpa using h1.2
                exact absurd hz hfs.ne'
              · exact h
            have hdneg : B0 - ((a.currentSize + fsize : Nat) : Int) < 0 := by
              rcases hor with h | h
              · exact h
              · rw [hcompF] at h
                exact Bool.noConfusion h
            refine ⟨?_, ?_, ?_⟩
            · intro a' h
              rw [hA] at h
              obtain ⟨hsz, hgen, hsa, hanc2, hprod, hcur⟩ :=
                appendField_ok_state _ _ _ _ _ _ _ _ h
              have hcur' : (a'.currentSize : Int) = B0 := by omega
              refine ⟨hsz.trans hnone, hgen, hsa, hanc2, hprod,
                by rw [hcur]; exact Nat.le_add_right _ _, ?_, ?_⟩
              · intro B hB
                injection hB with hB
                rw [← hB]
                exact le_of_eq hcur'
              · intro hle hcb
                have hcB : (c : Int) = B0 := by
                  have h1 := hcb B0 rfl
                  have h2 : (a'.currentSize : Int) ≤ (c : Int) := by
                    exact_mod_cast hle
                  omega
                have htrB : (negOpt (checkSizeLoose { a with size? := some c }
                    (a.currentSize + fsize)) || (isSet && fsize == 0))
                    = true := by
                  rw [hxB, hcompF]
                  simp only [negOpt, Bool.or_false, decide_eq_true_eq]
                  omega
                have hposB : 0 < (fsize : Int)
                    + ((c : Int) - ((a.currentSize + fsize : Nat) : Int)) := by
                  rw [hcB]
                  exact hpos
                have hAB := addFieldSized_eq_trunc { a with size? := some c }
                  nm a.currentSize fsize isSet val askStop _ htrB hxB hposB
                  hcomp2
                have harg : ((fsize : Int)
                    + ((c : Int) - ((a.currentSize + fsize : Nat) : Int))).toNat
                    = ((fsize : Int)
                      + (B0 - ((a.currentSize + fsize : Nat) : Int))).toNat := by
                  rw [hcB]
                rw [hA, hAB, harg, appendField_setSize]
            · intro a' h
              rw [hA] at h
              exact (appendField_drop_state _ _ _ _ _ _ _ _ h).elim
            · intro e a' h
              rw [hA] at h
              exact (appendField_fail_state _ _ _ _ _ _ _ _ _ h).2.trans hnone
          | false =>
            have hA := addFieldSized_eq_dropSet a nm a.currentSize fsize isSet
              val askStop _ htr hd hpos hcomp2 hnone
            refine ⟨?_, ?_, ?_⟩
            · intro a' h
              rcases h with h | h <;> rw [hA] at h <;> exact AddRes.noConfusion h
            · intro a' h
              rw [hA] at h
              injection h with h
              refine ⟨?_, ?_⟩
              · intro h0
                rw [← h] at h0
                exact Option.noConfusion h0
              · intro c0 h0
                rw [← h] at h0
                injection h0 with h0
                have hc0 : (c0 : Int) = B0 := by omega
                refine ⟨by rw [← h, h0], by omega, ?_, ?_⟩
                · rw [hc0]
                · intro hc
                  have hcB : (c : Int) = B0 := by
                    rw [hc]
                    exact hc0
                  have htrB : (negOpt (checkSizeLoose
                      { a with size? := some c } (a.currentSize + fsize))
                      || (isSet && fsize == 0)) = true := by
                    rw [hxB]
                    rcases hor with hneg | hcmp
                    · simp only [negOpt, Bool.or_eq_true, decide_eq_true_eq]
                      left
                      omega
                    · rw [hcmp]
                      simp
                  have hposB : 0 < (fsize : Int)
                      + ((c : Int) - ((a.currentSize + fsize : Nat) : Int)) := by
                    rw [hcB]
                    exact hpos
                  have hAB := addFieldSized_eq_dropKeep
                    { a with size? := some c } nm a.currentSize fsize isSet val
                    askStop _ htrB hxB hposB hcomp2
                    (by intro hh; exact Option.noConfusion hh)
                  rw [hAB, ← h, hc, h0]
            · intro e a' h
              rw [hA] at h
              exact AddRes.noConfusion h
        · have hA := addFieldSized_eq_dropNeg a nm a.currentSize fsize isSet
            val askStop _ htr hd hpos
          refine ⟨?_, ?_, ?_⟩
          · intro a' h
            rcases h with h | h <;> rw [hA] at h <;> exact AddRes.noConfusion h
          · intro a' h
            rw [hA] at h
            injection h with h
            refine ⟨?_, ?_⟩
            · intro h0
              refine ⟨h.symm, ?_⟩
              intro hc
              have htrB : (negOpt (checkSizeLoose { a with size? := some c }
                  (a.currentSize + fsize)) || (isSet && fsize == 0))
                  = true := by
                rw [hxB]
                rcases Bool.eq_false_or_eq_true (isSet && fsize == 0) with
                  hcmp | hcmp
                · rw [hcmp]
                  simp
                · have hneg : B0 - ((a.currentSize + fsize : Nat) : Int)
                      < 0 := by
                    rcases hor with hh | hh
                    · exact hh
                    · rw [hcmp] at hh
                      exact Bool.noConfusion hh
                  simp only [negOpt, Bool.or_eq_true, decide_eq_true_eq]
                  left
                  omega
              have hnegB : ¬ (0 < (fsize : Int)
                  + ((c : Int) - ((a.currentSize + fsize : Nat) : Int))) := by
                omega
              have hAB := addFieldSized_eq_dropNeg { a with size? := some c }
                nm a.currentSize fsize isSet val askStop _ htrB hxB hnegB
              rw [hAB]
            · intro c0 h0
              rw [← h, hnone] at h0
              exact Option.noConfusion h0
          · intro e a' h
            rw [hA] at h
            exact AddRes.noConfusion h

theorem addField_addr (s : FSState) (f : FieldSpec) :
    (if f.addr = s.currentSize then f.addr else s.currentSize)
      = s.currentSize := by
  by_cases h : f.addr = s.currentSize
  · rw [if_pos h]
    exact h
  · rw [if_neg h]

theorem addField_eq_some (autofix : Bool) (s : FSState) (f : FieldSpec)
    (n : Nat) (hn : f.size? = some n) (P : List (String × Nat) × String)
    (hP : P = (if strEndsWith f.name "[]"
        then setUniqueFieldName s.counters f.name else (s.counters, f.name))) :
    addField autofix s f
      = addFieldSized autofix { s with counters := P.1 } P.2 s.currentSize n
          f.isSet f.val false := by
  subst hP
  unfold addField
  dsimp only
  rw [hn, addField_addr]

theorem addField_eq_none_go (autofix : Bool) (s : FSState) (f : FieldSpec)
    (hn : f.size? = none)
    (heof : (f.isSet && (f.currentLen != 0) && f.eofF) = true)
    (P : List (String × Nat) × String)
    (hP : P = (if strEndsWith f.name "[]"
        then setUniqueFieldName s.counters f.name else (s.counters, f.name))) :
    addField autofix s f
      = addFieldSized autofix { s with counters := P.1 } P.2 s.currentSize
          f.childCur f.isSet f.val true := by
  subst hP
  unfold addField
  dsimp only
  rw [hn]
  dsimp only
  rw [if_pos heof, addField_addr]

theorem addField_eq_none_fail (autofix : Bool) (s : FSState) (f : FieldSpec)
    (hn : f.size? = none)
    (heof : (f.isSet && (f.currentLen != 0) && f.eofF) = false)
    (P : List (String × Nat) × String)
    (hP : P = (if strEndsWith f.name "[]"
        then setUniqueFieldName s.counters f.name else (s.counters, f.name))) :
    addField autofix s f
      = AddRes.fail DErr.hachoirError { s with counters := P.1 } := by
  subst hP
  unfold addField
  dsimp only
  rw [hn]
  dsimp only
  rw [if_neg (by rw [heof]; exact Bool.false_ne_true)]

/-- `addFieldSized_sim` lifted through the rename stage of `_addField`. -/
theorem addField_sim (autofix : Bool) (s : FSState) (f : FieldSpec) (c : Nat)
    (hnone : s.size? = none)
    (hinv : ∀ B, ancRel s = some B → (s.currentSize : Int) ≤ B) :
    (∀ a', (addField autofix s f = AddRes.ok a'
        ∨ addField autofix s f = AddRes.okStop a') →
      a'.size? = none ∧ a'.gen = s.gen ∧ a'.selfAddr = s.selfAddr ∧
      a'.ancestors = s.ancestors ∧ a'.producer = s.producer ∧
      s.currentSize ≤ a'.currentSize ∧
      (∀ B, ancRel s = some B → (a'.currentSize : Int) ≤ B) ∧
      (a'.currentSize ≤ c → (∀ B, ancRel s = some B → (c : Int) ≤ B) →
        addField autofix { s with size? := some c } f
          = resSetSize c (addField autofix s f))) ∧
    (∀ a', addField autofix s f = AddRes.dropStop a' →
      (a'.size? = none → a'.fields = s.fields ∧
        a'.currentSize = s.currentSize ∧ a'.gen = s.gen ∧
        a'.selfAddr = s.selfAddr ∧ a'.ancestors = s.ancestors ∧
        a'.producer = s.producer ∧
        (c = s.currentSize →
          addField autofix { s with size? := some c } f
            = AddRes.dropStop { a' with size? := some c })) ∧
      (∀ c0, a'.size? = some c0 → a'.fields = s.fields ∧
        a'.currentSize = s.currentSize ∧ a'.gen = s.gen ∧
        a'.selfAddr = s.selfAddr ∧ a'.ancestors = s.ancestors ∧
        a'.producer = s.producer ∧ s.currentSize ≤ c0 ∧
        ancRel s = some ((c0 : Nat) : Int) ∧
        (c = c0 →
          addField autofix { s with size? := some c } f
            = AddRes.dropStop a'))) ∧
    (∀ e a', addField autofix s f = AddRes.fail e a' → a'.size? = none) := by
  cases hn : f.size? with
  | some n =>
    have hA := addField_eq_some autofix s f n hn _ rfl
    have hAB := addField_eq_some autofix { s with size? := some c } f n hn
      _ rfl
    obtain ⟨Mok, Mdrop, Mfail⟩ := addFieldSized_sim autofix
      { s with counters := (if strEndsWith f.name "[]"
          then setUniqueFieldName s.counters f.name
          else (s.counters, f.name)).1 }
      (if strEndsWith f.name "[]" then setUniqueFieldName s.counters f.name
        else (s.counters, f.name)).2
      n f.isSet f.val false c hnone hinv
    refine ⟨?_, ?_, ?_⟩
    · intro a' h
      rw [hA] at h
      obtain ⟨h1, h2, h3, h4, h5, h6, h7, h8⟩ := Mok a' h
      refine ⟨h1, h2, h3, h4, h5, h6, h7, ?_⟩
      intro hle hcb
      rw [hAB, hA]
      exact h8 hle hcb
    · intro a' h
      rw [hA] at h
      obtain ⟨Hn, Hs⟩ := Mdrop a' h
      refine ⟨?_, ?_⟩
      · intro h0
        obtain ⟨hEq, hBe⟩ := Hn h0
        subst hEq
        refine ⟨rfl, rfl, rfl, rfl, rfl, rfl, ?_⟩
        intro hc
        rw [hAB]
        exact hBe hc
      · intro c0 h0
        obtain ⟨hEq, hle0, hanc0, hBe⟩ := Hs c0 h0
        subst hEq
        refine ⟨rfl, rfl, rfl, rfl, rfl, rfl, hle0, hanc0, ?_⟩
        intro hc
        rw [hAB]
        exact hBe hc
    · intro e a' h
      rw [hA] at h
      exact Mfail e a' h
  | none =>
    cases heof : (f.isSet && (f.currentLen != 0) && f.eofF) with
    | true =>
      have hA := addField_eq_none_go autofix s f hn heof _ rfl
      have hAB := addField_eq_none_go autofix { s with size? := some c } f hn
        heof _ rfl
      obtain ⟨Mok, Mdrop, Mfail⟩ := addFieldSized_sim autofix
        { s with counters := (if strEndsWith f.name "[]"
            then setUniqueFieldName s.counters f.name
            else (s.counters, f.name)).1 }
        (if strEndsWith f.name "[]" then setUniqueFieldName s.counters f.name
          else (s.counters, f.name)).2
        f.childCur f.isSet f.val true c hnone hinv
      refine ⟨?_, ?_, ?_⟩
      · intro a' h
        rw [hA] at h
        obtain ⟨h1, h2, h3, h4, h5, h6, h7, h8⟩ := Mok a' h
        refine ⟨h1, h2, h3, h4, h5, h6, h7, ?_⟩
        intro hle hcb
        rw [hAB, hA]
        exact h8 hle hcb
      · intro a' h
        rw [hA] at h
        obtain ⟨Hn, Hs⟩ := Mdrop a' h
        refine ⟨?_, ?_⟩
        · intro h0
          obtain ⟨hEq, hBe⟩ := Hn h0
          subst hEq
          refine ⟨rfl, rfl, rfl, rfl, rfl, rfl, ?_⟩
          intro hc
          rw [hAB]
          exact hBe hc
        · intro c0 h0
          obtain ⟨hEq, hle0, hanc0, hBe⟩ := Hs c0 h0
          subst hEq
          refine ⟨rfl, rfl, rfl, rfl, rfl, rfl, hle0, hanc0, ?_⟩
          intro hc
          rw [hAB]
          exact hBe hc
      · intro e a' h
        rw [hA] at h
        exact Mfail e a' h
    | false =>
      have hA := addField_eq_none_fail autofix s f hn heof _ rfl
      refine ⟨?_, ?_, ?_⟩
      · intro a' h
        rcases h with h | h <;> rw [hA] at h <;> exact AddRes.noConfusion h
      · intro a' h
        rw [hA] at h
        exact AddRes.noConfusion h
      · intro e a' h
        rw [hA] at h
        injection h with he hs
        rw [← hs]
        exact hnone

/-- The state carried by an `_addField` outcome. -/
def AddRes.st : AddRes → FSState
  | AddRes.ok s => s
  | AddRes.okStop s => s
  | AddRes.dropStop s => s
  | AddRes.fail _ s => s

/-- The state carried by a `_stopFeeding` outcome. -/
def StopRes.st : StopRes → FSState
  | StopRes.ok s _ => s
  | StopRes.fail _ s => s

/-- The state carried by a driver step. -/
def StepRes.st : StepRes → FSState
  | StepRes.cont s => s
  | StepRes.fin s _ => s

/-- The parts of the state the driver never writes: name, description,
own address, ancestor chain and the restartable producer. -/
def geomOf (s : FSState) :
    String × Option String × Nat × List (Nat × Option Nat) × List ProdItem :=
  (s.sname, s.description, s.selfAddr, s.ancestors, s.producer)


theorem appendField_geom (s : FSState) (nm : String) (addr F : Nat)
    (isSet : Bool) (val : Nat) (askStop : Bool) :
    geomOf (appendField s nm addr F isSet val askStop).st = geomOf s := by
  unfold appendField
  dsimp only
  repeat' split
  all_goals rfl

theorem appendField_size (s : FSState) (nm : String) (addr F : Nat)
    (isSet : Bool) (val : Nat) (askStop : Bool) :
    (appendField s nm addr F isSet val askStop).st.size? = s.size? := by
  unfold appendField
  dsimp only
  repeat' split
  all_goals rfl

theorem addFieldSized_geom (autofix : Bool) (s : FSState) (nm : String)
    (addr F : Nat) (isSet : Bool) (val : Nat) (askStop : Bool) :
    geomOf (addFieldSized autofix s nm addr F isSet val askStop).st
      = geomOf s := by
  unfold addFieldSized
  dsimp only
  repeat' split
  all_goals first
    | rfl
    | exact appendField_geom _ _ _ _ _ _ _

theorem addFieldSized_sizeSome (autofix : Bool) (s : FSState) (nm : String)
    (addr F : Nat) (isSet : Bool) (val : Nat) (askStop : Bool) (n : Nat)
    (h : s.size? = some n) :
    (addFieldSized autofix s nm addr F isSet val askStop).st.size?
      = some n := by
  unfold addFieldSized
  dsimp only
  repeat' split
  all_goals first
    | exact (appendField_size _ _ _ _ _ _ _).trans h
    | exact h
    | simp_all

theorem addField_geom (autofix : Bool) (s : FSState) (f : FieldSpec) :
    geomOf (addField autofix s f).st = geomOf s := by
  unfold addField
  dsimp only
  repeat' split
  all_goals first
    | rfl
    | exact addFieldSized_geom _ _ _ _ _ _ _ _

theorem addField_sizeSome (autofix : Bool) (s : FSState) (f : FieldSpec)
    (n : Nat) (h : s.size? = some n) :
    (addField autofix s f).st.size? = some n := by
  unfold addField
  dsimp only
  repeat' split
  all_goals first
    | exact addFieldSized_sizeSome _ _ _ _ _ _ _ _ n h
    | exact h

theorem fixLastField_geom (s : FSState) (n : Nat) :
    geomOf (fixLastField s n).st = geomOf s := by
  unfold fixLastField
  dsimp only
  repeat' split
  all_goals rfl

theorem fixLastField_size (s : FSState) (n : Nat) :
    (fixLastField s n).st.size? = s.size? := by
  unfold fixLastField
  dsimp only
  repeat' split
  all_goals rfl

theorem stopFeeding_geom (autofix : Bool) (s : FSState) :
    geomOf (stopFeeding autofix s).st = geomOf s := by
  unfold stopFeeding
  dsimp only
  repeat' split
  all_goals first
    | rfl
    | exact fixLastField_geom _ _

theorem stopFeeding_sizeSome (autofix : Bool) (s : FSState) (n : Nat)
    (h : s.size? = some n) : (stopFeeding autofix s).st.size? = some n := by
  unfold stopFeeding
  dsimp only
  repeat' split
  all_goals first
    | exact (fixLastField_size _ _).trans h
    | exact h
    | simp_all

theorem feedErrorStep_geom (autofix : Bool) (s : FSState) (e : DErr) :
    geomOf (feedErrorStep autofix s e).1 = geomOf s := by
  unfold feedErrorStep
  split
  · rfl
  · next n hn =>
    split
    · split
      · next u r hF =>
        have hg := fixLastField_geom s n
        rw [hF] at hg
        exact hg
      · next e1 u hF =>
        have hg := fixLastField_geom s n
        rw [hF] at hg
        exact hg
    · rfl

theorem feedErrorStep_sizeSome (autofix : Bool) (s : FSState) (e : DErr)
    (n : Nat) (h : s.size? = some n) :
    (feedErrorStep autofix s e).1.size? = some n := by
  unfold feedErrorStep
  split
  · next hn =>
    rw [hn] at h
    exact Option.noConfusion h
  · next m hm =>
    split
    · split
      · next u r hF =>
        have hg := fixLastField_size s m
        rw [hF] at hg
        exact hg.trans h
      · next e1 u hF =>
        have hg := fixLastField_size s m
        rw [hF] at hg
        exact hg.trans h
    · exact h

theorem feedStep_geom (autofix : Bool) (s : FSState) :
    geomOf (feedStep autofix s).st = geomOf s := by
  unfold feedStep stopToFin
  dsimp only
  cases hg : s.gen with
  | none => rfl
  | some l =>
    cases l with
    | nil =>
      dsimp only
      cases hF : stopFeeding autofix s with
      | ok u r =>
        have h1 := stopFeeding_geom autofix s
        rw [hF] at h1
        exact h1
      | fail e1 u =>
        have h1 := stopFeeding_geom autofix s
        rw [hF] at h1
        exact h1
    | cons it rest =>
      cases it with
      | raiseErr =>
        dsimp only
        exact feedErrorStep_geom autofix { s with gen := some [] }
          DErr.hachoirError
      | yieldF f =>
        dsimp only
        have h1 := addField_geom autofix { s with gen := some rest } f
        cases hA : addField autofix { s with gen := some rest } f with
        | ok t =>
          rw [hA] at h1
          exact h1
        | okStop t =>
          rw [hA] at h1
          dsimp only
          cases hF : stopFeeding autofix t with
          | ok u r =>
            have h2 := stopFeeding_geom autofix t
            rw [hF] at h2
            exact h2.trans h1
          | fail e1 u =>
            have h2 := stopFeeding_geom autofix t
            rw [hF] at h2
            exact h2.trans h1
        | dropStop t =>
          rw [hA] at h1
          dsimp only
          cases hF : stopFeeding autofix t with
          | ok u r =>
            have h2 := stopFeeding_geom autofix t
            rw [hF] at h2
            exact h2.trans h1
          | fail e1 u =>
            have h2 := stopFeeding_geom autofix t
            rw [hF] at h2
            exact h2.trans h1
        | fail e t =>
          rw [hA] at h1
          dsimp only
          split
          · exact (feedErrorStep_geom autofix t e).trans h1
          · exact h1

theorem feedStep_sizeSome (autofix : Bool) (s : FSState) (n : Nat)
    (h : s.size? = some n) : (feedStep autofix s).st.size? = some n := by
  unfold feedStep stopToFin
  dsimp only
  cases hg : s.gen with
  | none => exact h
  | some l =>
    cases l with
    | nil =>
      dsimp only
      cases hF : stopFeeding autofix s with
      | ok u r =>
        have h1 := stopFeeding_sizeSome autofix s n h
        rw [hF] at h1
        exact h1
      | fail e1 u =>
        have h1 := stopFeeding_sizeSome autofix s n h
        rw [hF] at h1
        exact h1
    | cons it rest =>
      cases it with
      | raiseErr =>
        dsimp only
        exact feedErrorStep_sizeSome autofix { s with gen := some [] }
          DErr.hachoirError n h
      | yieldF f =>
        dsimp only
        have h1 := addField_sizeSome autofix { s with gen := some rest } f n h
        cases hA : addField autofix { s with gen := some rest } f with
        | ok t =>
          rw [hA] at h1
          exact h1
        | okStop t =>
          rw [hA] at h1
          dsimp only
          cases hF : stopFeeding autofix t with
          | ok u r =>
            have h2 := stopFeeding_sizeSome autofix t n h1
            rw [hF] at h2
            exact h2
          | fail e1 u =>
            have h2 := stopFeeding_sizeSome autofix t n h1
            rw [hF] at h2
            exact h2
        | dropStop t =>
          rw [hA] at h1
          dsimp only
          cases hF : stopFeeding autofix t with
          | ok u r =>
            have h2 := stopFeeding_sizeSome autofix t n h1
            rw [hF] at h2
            exact h2
          | fail e1 u =>
            have h2 := stopFeeding_sizeSome autofix t n h1
            rw [hF] at h2
            exact h2
        | fail e t =>
          rw [hA] at h1
          dsimp only
          split
          · exact feedErrorStep_sizeSome autofix t e n h1
          · exact h1

theorem feedLoop_geom (autofix : Bool) : ∀ (k : Nat) (s : FSState),
    geomOf (feedLoop autofix k s).1 = geomOf s := by
  intro k
  induction k with
  | zero => intro s; rfl
  | succ k ih =>
    intro s
    unfold feedLoop
    have h1 := feedStep_geom autofix s
    cases hS : feedStep autofix s with
    | cont t =>
      rw [hS] at h1
      exact (ih t).trans h1
    | fin t e =>
      rw [hS] at h1
      exact h1

theorem feedLoop_sizeSome (autofix : Bool) : ∀ (k : Nat) (s : FSState)
    (n : Nat), s.size? = some n → (feedLoop autofix k s).1.size? = some n := by
  intro k
  induction k with
  | zero => intro s n h; exact h
  | succ k ih =>
    intro s n h
    unfold feedLoop
    have h1 := feedStep_sizeSome autofix s n h
    cases hS : feedStep autofix s with
    | cont t =>
      rw [hS] at h1
      exact ih t n h1
    | fin t e =>
      rw [hS] at h1
      exact h1

theorem stopFeeding_eq_none_root (autofix : Bool) (s : FSState)
    (h : s.size? = none) (he : s.ancestors.isEmpty = true) :
    stopFeeding autofix s = StopRes.ok { s with gen := none } none := by
  unfold stopFeeding
  rw [h]
  dsimp only
  rw [if_pos he, h]

theorem stopFeeding_eq_none_seal (autofix : Bool) (s : FSState)
    (h : s.size? = none) (he : s.ancestors.isEmpty = false) :
    stopFeeding autofix s
      = StopRes.ok { s with size? := some s.currentSize, gen := none }
          none := by
  unfold stopFeeding
  rw [h]
  dsimp only
  rw [if_neg (by rw [he]; exact Bool.false_ne_true)]

theorem stopFeeding_eq_some_eq (autofix : Bool) (s : FSState) (n : Nat)
    (h : s.size? = some n) (he : n = s.currentSize) :
    stopFeeding autofix s = StopRes.ok { s with gen := none } none := by
  unfold stopFeeding
  rw [h]
  dsimp only
  rw [if_neg (not_not_intro he)]

theorem stopToFin_eq_ok (autofix : Bool) (s u : FSState) (r : Option FieldRec)
    (h : stopFeeding autofix s = StopRes.ok u r) :
    stopToFin autofix s = StepRes.fin u none := by
  unfold stopToFin
  rw [h]

theorem stopToFin_eq_fail (autofix : Bool) (s : FSState) (e : DErr)
    (u : FSState) (h : stopFeeding autofix s = StopRes.fail e u) :
    stopToFin autofix s = StepRes.fin u (some e) := by
  unfold stopToFin
  rw [h]

theorem feedStep_eq_genNone (autofix : Bool) (a : FSState)
    (h : a.gen = none) : feedStep autofix a = StepRes.fin a none := by
  unfold feedStep
  rw [h]

theorem feedStep_eq_genNil (autofix : Bool) (a : FSState)
    (h : a.gen = some []) : feedStep autofix a = stopToFin autofix a := by
  unfold feedStep
  rw [h]

theorem feedStep_eq_raise (autofix : Bool) (a : FSState) (r : List ProdItem)
    (h : a.gen = some (ProdItem.raiseErr :: r)) :
    feedStep autofix a
      = StepRes.fin
          (feedErrorStep autofix { a with gen := some [] }
            DErr.hachoirError).1
          (feedErrorStep autofix { a with gen := some [] }
            DErr.hachoirError).2 := by
  unfold feedStep
  rw [h]

theorem feedStep_eq_yield_ok (autofix : Bool) (a : FSState) (f : FieldSpec)
    (rest : List ProdItem) (t : FSState)
    (h : a.gen = some (ProdItem.yieldF f :: rest))
    (hA : addField autofix { a with gen := some rest } f = AddRes.ok t) :
    feedStep autofix a = StepRes.cont t := by
  unfold feedStep
  rw [h]
  dsimp only
  rw [hA]

theorem feedStep_eq_yield_okStop (autofix : Bool) (a : FSState)
    (f : FieldSpec) (rest : List ProdItem) (t : FSState)
    (h : a.gen = some (ProdItem.yieldF f :: rest))
    (hA : addField autofix { a with gen := some rest } f = AddRes.okStop t) :
    feedStep autofix a = stopToFin autofix t := by
  unfold feedStep
  rw [h]
  dsimp only
  rw [hA]

theorem feedStep_eq_yield_drop (autofix : Bool) (a : FSState) (f : FieldSpec)
    (rest : List ProdItem) (t : FSState)
    (h : a.gen = some (ProdItem.yieldF f :: rest))
    (hA : addField autofix { a with gen := some rest } f
      = AddRes.dropStop t) :
    feedStep autofix a = stopToFin autofix t := by
  unfold feedStep
  rw [h]
  dsimp only
  rw [hA]

theorem feedStep_eq_yield_fail (autofix : Bool) (a : FSState) (f : FieldSpec)
    (rest : List ProdItem) (e : DErr) (t : FSState)
    (h : a.gen = some (ProdItem.yieldF f :: rest))
    (hA : addField autofix { a with gen := some rest } f = AddRes.fail e t) :
    feedStep autofix a
      = (if e.isHachoir then
          StepRes.fin (feedErrorStep autofix t e).1 (feedErrorStep autofix t e).2
        else StepRes.fin t (some e)) := by
  unfold feedStep
  rw [h]
  dsimp only
  rw [hA]

theorem feedLoop_succ_cont (autofix : Bool) (k : Nat) (a t : FSState)
    (h : feedStep autofix a = StepRes.cont t) :
    feedLoop autofix (Nat.succ k) a = feedLoop autofix k t := by
  conv_lhs => unfold feedLoop
  rw [h]

theorem feedLoop_succ_fin (autofix : Bool) (k : Nat) (a t : FSState)
    (e : Option DErr) (h : feedStep autofix a = StepRes.fin t e) :
    feedLoop autofix (Nat.succ k) a = (t, e) := by
  conv_lhs => unfold feedLoop
  rw [h]

/-- Restart simulation: when a feeding run from a state with unknown size
ends with the size recorded as `c`, then `c` dominates the start
`current_size`, respects every known ancestor bound, and rerunning the same
loop with the size pinned to `c` from the start gives the identical
outcome. -/
theorem feedSim (autofix : Bool) : ∀ (k : Nat) (a : FSState) (c : Nat),
    a.size? = none →
    (∀ B, ancRel a = some B → (a.currentSize : Int) ≤ B) →
    (feedLoop autofix k a).1.size? = some c →
    a.currentSize ≤ c ∧
    (∀ B, ancRel a = some B → (c : Int) ≤ B) ∧
    feedLoop autofix k { a with size? := some c } = feedLoop autofix k a := by
  intro k
  induction k with
  | zero =>
    intro a c hnone hinv hfin
    have h2 : a.size? = some c := hfin
    rw [hnone] at h2
    exact Option.noConfusion h2
  | succ k ih =>
    intro a c hnone hinv hfin
    obtain ⟨g, hg⟩ : ∃ g, a.gen = g := ⟨a.gen, rfl⟩
    cases g with
    | none =>
      have hSA := feedStep_eq_genNone autofix a hg
      have hLA := feedLoop_succ_fin autofix k a a none hSA
      rw [hLA] at hfin
      have h2 : a.size? = some c := hfin
      rw [hnone] at h2
      exact Option.noConfusion h2
    | some l =>
      cases l with
      | nil =>
        have hSA := feedStep_eq_genNil autofix a hg
        cases he : a.ancestors.isEmpty with
        | true =>
          have hF := stopFeeding_eq_none_root autofix a hnone he
          have hLA := feedLoop_succ_fin autofix k a _ none
            (hSA.trans (stopToFin_eq_ok autofix a _ _ hF))
          rw [hLA] at hfin
          have h2 : a.size? = some c := hfin
          rw [hnone] at h2
          exact Option.noConfusion h2
        | false =>
          have hF := stopFeeding_eq_none_seal autofix a hnone he
          have hLA := feedLoop_succ_fin autofix k a _ none
            (hSA.trans (stopToFin_eq_ok autofix a _ _ hF))
          rw [hLA] at hfin
          have h2 : some a.currentSize = some c := hfin
          injection h2 with h2
          refine ⟨le_of_eq h2, ?_, ?_⟩
          · intro B hB
            rw [← h2]
            exact hinv B hB
          · have hgB : ({ a with size? := some c } : FSState).gen
                = some [] := hg
            have hSB := feedStep_eq_genNil autofix
              { a with size? := some c } hgB
            have hFB := stopFeeding_eq_some_eq autofix
              { a with size? := some c } c rfl h2.symm
            have hLB := feedLoop_succ_fin autofix k
              { a with size? := some c } _ none
              (hSB.trans (stopToFin_eq_ok autofix _ _ _ hFB))
            rw [hLA, hLB, h2]
      | cons it rest =>
        cases it with
        | raiseErr =>
          have hSA := feedStep_eq_raise autofix a rest hg
          have hE : feedErrorStep autofix { a with gen := some [] }
              DErr.hachoirError
              = ({ a with gen := some [] }, some DErr.hachoirError) := by
            unfold feedErrorStep
            rw [show ({ a with gen := some [] } : FSState).size? = none
              from hnone]
          have hSA2 : feedStep autofix a
              = StepRes.fin { a with gen := some [] }
                  (some DErr.hachoirError) := by
            rw [hSA, hE]
          have hLA := feedLoop_succ_fin autofix k a _ _ hSA2
          rw [hLA] at hfin
          have h2 : a.size? = some c := hfin
          rw [hnone] at h2
          exact Option.noConfusion h2
        | yieldF f =>
          have hnone1 : ({ a with gen := some rest } : FSState).size?
              = none := hnone
          have hinv1 : ∀ B, ancRel { a with gen := some rest } = some B →
              (({ a with gen := some rest } : FSState).currentSize : Int)
                ≤ B := hinv
          obtain ⟨Mok, Mdrop, Mfail⟩ := addField_sim autofix
            { a with gen := some rest } f c hnone1 hinv1
          have hgB : ({ a with size? := some c } : FSState).gen
              = some (ProdItem.yieldF f :: rest) := hg
          cases hA : addField autofix { a with gen := some rest } f with
          | ok t =>
            have hSA := feedStep_eq_yield_ok autofix a f rest t hg hA
            have hLA := feedLoop_succ_cont autofix k a t hSA
            rw [hLA] at hfin
            obtain ⟨h1, h2, h3, h4, h5, h6, h7, h8⟩ := Mok t (Or.inl hA)
            have hanct : ancRel t = ancRel a := by
              unfold ancRel
              rw [h3, h4]
            have hinvt : ∀ B, ancRel t = some B →
                (t.currentSize : Int) ≤ B := by
              intro B hB
              rw [hanct] at hB
              exact h7 B hB
            obtain ⟨ih1, ih2, ih3⟩ := ih t c h1 hinvt hfin
            refine ⟨le_trans h6 ih1, ?_, ?_⟩
            · intro B hB
              apply ih2
              rw [hanct]
              exact hB
            · have hBeq := h8 ih1 (fun B hB => ih2 B (by rw [hanct]; exact hB))
              rw [hA] at hBeq
              have hBeq' : addField autofix
                  { { a with size? := some c } with gen := some rest } f
                  = AddRes.ok { t with size? := some c } := hBeq
              have hSB := feedStep_eq_yield_ok autofix
                { a with size? := some c } f rest { t with size? := some c }
                hgB hBeq'
              have hLB := feedLoop_succ_cont autofix k
                { a with size? := some c } { t with size? := some c } hSB
              rw [hLA, hLB]
              exact ih3
          | okStop t =>
            have hSA := feedStep_eq_yield_okStop autofix a f rest t hg hA
            obtain ⟨h1, h2, h3, h4, h5, h6, h7, h8⟩ := Mok t (Or.inr hA)
            cases he : t.ancestors.isEmpty with
            | true =>
              have hF := stopFeeding_eq_none_root autofix t h1 he
              have hLA := feedLoop_succ_fin autofix k a _ none
                (hSA.trans (stopToFin_eq_ok autofix t _ _ hF))
              rw [hLA] at hfin
              have h2' : t.size? = some c := hfin
              rw [h1] at h2'
              exact Option.noConfusion h2'
            | false =>
              have hF := stopFeeding_eq_none_seal autofix t h1 he
              have hLA := feedLoop_succ_fin autofix k a _ none
                (hSA.trans (stopToFin_eq_ok autofix t _ _ hF))
              rw [hLA] at hfin
              have hc0 : some t.currentSize = some c := hfin
              injection hc0 with hc0
              refine ⟨by rw [← hc0]; exact h6, ?_, ?_⟩
              · intro B hB
                rw [← hc0]
                exact h7 B hB
              · have hBeq := h8 (le_of_eq hc0)
                  (fun B hB => by rw [← hc0]; exact h7 B hB)
                rw [hA] at hBeq
                have hBeq' : addField autofix
                    { { a with size? := some c } with gen := some rest } f
                    = AddRes.okStop { t with size? := some c } := hBeq
                have hSB := feedStep_eq_yield_okStop autofix
                  { a with size? := some c } f rest
                  { t with size? := some c } hgB hBeq'
                have hFB := stopFeeding_eq_some_eq autofix
                  { t with size? := some c } c rfl hc0.symm
                have hLB := feedLoop_succ_fin autofix k
                  { a with size? := some c } _ none
                  (hSB.trans (stopToFin_eq_ok autofix _ _ _ hFB))
                rw [hLA, hLB, hc0]
          | dropStop t =>
            have hSA := feedStep_eq_yield_drop autofix a f rest t hg hA
            obtain ⟨Hn, Hs⟩ := Mdrop t hA
            cases ht : t.size? with
            | none =>
              obtain ⟨f1, f2, f3, f4, f5, f6, hBe⟩ := Hn ht
              cases he : t.ancestors.isEmpty with
              | true =>
                have hF := stopFeeding_eq_none_root autofix t ht he
                have hLA := feedLoop_succ_fin autofix k a _ none
                  (hSA.trans (stopToFin_eq_ok autofix t _ _ hF))
                rw [hLA] at hfin
                have h2' : t.size? = some c := hfin
                rw [ht] at h2'
                exact Option.noConfusion h2'
              | false =>
                have hF := stopFeeding_eq_none_seal autofix t ht he
                have hLA := feedLoop_succ_fin autofix k a _ none
                  (hSA.trans (stopToFin_eq_ok autofix t _ _ hF))
                rw [hLA] at hfin
                have hc0 : some t.currentSize = some c := hfin
                injection hc0 with hc0
                have hca : c = a.currentSize := by
                  rw [← hc0]
                  exact f2
                refine ⟨le_of_eq hca.symm, ?_, ?_⟩
                · intro B hB
                  rw [hca]
                  exact hinv B hB
                · have hABd := hBe hca
                  have hBeq' : addField autofix
                      { { a with size? := some c } with gen := some rest } f
                      = AddRes.dropStop { t with size? := some c } := hABd
                  have hSB := feedStep_eq_yield_drop autofix
                    { a with size? := some c } f rest
                    { t with size? := some c } hgB hBeq'
                  have hFB := stopFeeding_eq_some_eq autofix
                    { t with size? := some c } c rfl hc0.symm
                  have hLB := feedLoop_succ_fin autofix k
                    { a with size? := some c } _ none
                    (hSB.trans (stopToFin_eq_ok autofix _ _ _ hFB))
                  rw [hLA, hLB, hc0]
            | some c0 =>
              obtain ⟨f1, f2, f3, f4, f5, f6, hle0, hanc0, hBe⟩ := Hs c0 ht
              have hle0' : a.currentSize ≤ c0 := hle0
              have hanc0' : ancRel a = some ((c0 : Nat) : Int) := hanc0
              cases hF : stopFeeding autofix t with
              | ok u r =>
                have hu : u.size? = some c0 := by
                  have hh := stopFeeding_sizeSome autofix t c0 ht
                  rw [hF] at hh
                  exact hh
                have hLA := feedLoop_succ_fin autofix k a u none
                  (hSA.trans (stopToFin_eq_ok autofix t _ _ hF))
                rw [hLA] at hfin
                have hcc : some c0 = some c := by
                  rw [← hu]
                  exact hfin
                injection hcc with hcc
                refine ⟨by omega, ?_, ?_⟩
                · intro B hB
                  rw [hanc0'] at hB
                  injection hB with hB
                  rw [← hB]
                  exact_mod_cast le_of_eq hcc.symm
                · have hABd := hBe hcc.symm
                  have hBeq' : addField autofix
                      { { a with size? := some c } with gen := some rest } f
                      = AddRes.dropStop t := hABd
                  have hSB := feedStep_eq_yield_drop autofix
                    { a with size? := some c } f rest t hgB hBeq'
                  have hLB := feedLoop_succ_fin autofix k
                    { a with size? := some c } u none
                    (hSB.trans (stopToFin_eq_ok autofix t _ _ hF))
                  rw [hLA, hLB]
              | fail e1 u =>
                have hu : u.size? = some c0 := by
                  have hh := stopFeeding_sizeSome autofix t c0 ht
                  rw [hF] at hh
                  exact hh
                have hLA := feedLoop_succ_fin autofix k a u (some e1)
                  (hSA.trans (stopToFin_eq_fail autofix t _ _ hF))
                rw [hLA] at hfin
                have hcc : some c0 = some c := by
                  rw [← hu]
                  exact hfin
                injection hcc with hcc
                refine ⟨by omega, ?_, ?_⟩
                · intro B hB
                  rw [hanc0'] at hB
                  injection hB with hB
                  rw [← hB]
                  exact_mod_cast le_of_eq hcc.symm
                · have hABd := hBe hcc.symm
                  have hBeq' : addField autofix
                      { { a with size? := some c } with gen := some rest } f
                      = AddRes.dropStop t := hABd
                  have hSB := feedStep_eq_yield_drop autofix
                    { a with size? := some c } f rest t hgB hBeq'
                  have hLB := feedLoop_succ_fin autofix k
                    { a with size? := some c } u (some e1)
                    (hSB.trans (stopToFin_eq_fail autofix t _ _ hF))
                  rw [hLA, hLB]
          | fail e t =>
            have hsz := Mfail e t hA
            have hSA := feedStep_eq_yield_fail autofix a f rest e t hg hA
            cases hH : e.isHachoir with
            | true =>
              have hE : feedErrorStep autofix t e = (t, some e) := by
                unfold feedErrorStep
                rw [hsz]
              have hSA2 : feedStep autofix a = StepRes.fin t (some e) := by
                rw [hSA, if_pos hH, hE]
              have hLA := feedLoop_succ_fin autofix k a t (some e) hSA2
              rw [hLA] at hfin
              have h2 : t.size? = some c := hfin
              rw [hsz] at h2
              exact Option.noConfusion h2
            | false =>
              have hSA2 : feedStep autofix a = StepRes.fin t (some e) := by
                rw [hSA, if_neg (by rw [hH]; exact Bool.false_ne_true)]
              have hLA := feedLoop_succ_fin autofix k a t (some e) hSA2
              rw [hLA] at hfin
              have h2 : t.size? = some c := hfin
              rw [hsz] at h2
              exact Option.noConfusion h2

theorem readMoreFields_reset (autofix : Bool) (k : Nat) (u : FSState) :
    readMoreFields autofix k (reset u) = feedLoop autofix k (reset u) := rfl

theorem reset_congr (t u : FSState) (hg : geomOf t = geomOf u)
    (h5 : t.size? = u.size?) : reset t = reset u := by
  cases t
  cases u
  unfold geomOf at hg
  dsimp only at hg h5
  simp only [Prod.mk.injEq] at hg
  obtain ⟨e1, e2, e3, e4, e5⟩ := hg
  subst e1
  subst e2
  subst e3
  subst e4
  subst e5
  subst h5
  rfl

/-- C6: for every field set whose producer is restartable (and whose known
ancestor bounds are geometrically sound, i.e. non-negative), `reset()`
followed by `readMoreFields(k)`, done twice in succession, materialises
identical children both times — the same list of fields, hence the same
names, addresses, sizes and values; and `reset()` preserves the set's name,
size and description while clearing the fields, the counters and
`current_size` and recreating the producer. -/
theorem c6_reset_idempotent (autofix : Bool) (k : Nat) (s : FSState)
    (hgeom : ∀ B, ancRel s = some B → (0 : Int) ≤ B) :
    (readMoreFields autofix k
        (reset (readMoreFields autofix k (reset s)).1)).1.fields
      = ((readMoreFields autofix k (reset s)).1).fields ∧
    (reset s).sname = s.sname ∧ (reset s).size? = s.size? ∧
    (reset s).description = s.description ∧ (reset s).fields = [] ∧
    (reset s).counters = [] ∧ (reset s).currentSize = 0 ∧
    (reset s).gen = some s.producer := by
  refine ⟨?_, rfl, rfl, rfl, rfl, rfl, rfl, rfl⟩
  rw [readMoreFields_reset autofix k s,
    readMoreFields_reset autofix k (feedLoop autofix k (reset s)).1]
  have hgeo : geomOf (feedLoop autofix k (reset s)).1 = geomOf s :=
    feedLoop_geom autofix k (reset s)
  obtain ⟨m, hs⟩ : ∃ m, s.size? = m := ⟨s.size?, rfl⟩
  cases m with
  | some n =>
    have h1 : (reset s).size? = some n := hs
    have h2 := feedLoop_sizeSome autofix k (reset s) n h1
    have hre : reset (feedLoop autofix k (reset s)).1 = reset s :=
      reset_congr _ _ hgeo (h2.trans hs.symm)
    rw [hre]
  | none =>
    obtain ⟨m2, hfin⟩ : ∃ m2, (feedLoop autofix k (reset s)).1.size? = m2 :=
      ⟨_, rfl⟩
    cases m2 with
    | none =>
      have hre : reset (feedLoop autofix k (reset s)).1 = reset s :=
        reset_congr _ _ hgeo (hfin.trans hs.symm)
      rw [hre]
    | some c =>
      have h0none : (reset s).size? = none := hs
      have hinv0 : ∀ B, ancRel (reset s) = some B →
          (((reset s) : FSState).currentSize : Int) ≤ B := by
        intro B hB
        exact_mod_cast hgeom B hB
      obtain ⟨hm, hub, hsim⟩ := feedSim autofix k (reset s) c h0none hinv0 hfin
      have hre1 : reset (feedLoop autofix k (reset s)).1
          = reset { s with size? := some c } := by
        refine reset_congr _ _ ?_ hfin
        exact hgeo
      have hre2 : reset { s with size? := some c }
          = { reset s with size? := some c } := rfl
      rw [hre1, hre2, hsim]

/-- A concrete restartable field set for the C6 witness: two 8-bit leaves
(the second through the `"[]"` rename machinery) under a 64-bit ancestor
bound; the first run seals the size at 16 bits. -/
def c6wField1 : FieldSpec := ⟨"a", 0, some 8, false, 0, false, 0, 1⟩

def c6wField2 : FieldSpec := ⟨"b[]", 8, some 8, false, 0, false, 0, 2⟩

def c6wProd : List ProdItem :=
  [ProdItem.yieldF c6wField1, ProdItem.yieldF c6wField2]

def c6wState : FSState :=
  ⟨"root", none, 0, [(0, some 64)], none, [], [], 0, some c6wProd, c6wProd⟩

theorem c6_reset_idempotent_witness :
    (∀ B, ancRel c6wState = some B → (0 : Int) ≤ B) ∧
    (readMoreFields false 3
        (reset (readMoreFields false 3 (reset c6wState)).1)).1.fields
      = ((readMoreFields false 3 (reset c6wState)).1).fields := by
  have hg : ∀ B, ancRel c6wState = some B → (0 : Int) ≤ B := by
    intro B hB
    rw [show ancRel c6wState = some (64 : Int) from rfl] at hB
    injection hB with hB
    omega
  exact ⟨hg, (c6_reset_idempotent false 3 c6wState hg).1⟩
